import Mathlib

/-!
Verification of the quartz_nbt binary NBT decoder (src/read.rs) and the
representation-error conversions (src/repr.rs).

The byte stream is modelled as a list of natural numbers; each read takes
the head modulo 256, so every list denotes a well-formed byte stream.
Fallible reads return an `Except` value, mirroring std::io::Result.
Machine integers are modelled as Nat/Int with explicit two's-complement
interpretation (`to_signed`); IEEE-754 floats are carried as their raw
big-endian bit patterns, which is exactly what the decoder reads and
stores (it performs no float arithmetic).

The recursion of read_tag_body is bounded in Rust only by exhaustion of
the underlying stream.  The embedding makes that explicit with a fuel
parameter; a distinguished error `outOfFuel` marks fuel exhaustion, and
the development proves that with fuel `2 * length + 2` this error never
occurs, so the fuel-free semantics `read_tag_body_run` is total.
-/

namespace QuartzNbt

/-- Error type of the decoder.  The Rust code uses std::io::Error; the
constructors below correspond to, in order: an end-of-stream failure of a
primitive read, the four distinct InvalidData messages constructed in
read.rs (root framing, list type, tag type, string encoding), and the
fuel-exhaustion artifact of the embedding (proved unreachable for the
fuel used by `read_tag_body_run`). -/
inductive NbtError where
  | unexpectedEof
  | notCompoundAtRoot
  | invalidListType
  | invalidTagType
  | invalidStringEncoding
  | outOfFuel
deriving DecidableEq

/-- A byte stream: the sequence of bytes not yet consumed. -/
abbrev ByteStream := List Nat

/-- All entries of the stream are actual bytes. -/
def is_byte_stream (s : ByteStream) : Prop := ∀ b ∈ s, b < 256

/-- Two's-complement interpretation of a `w`-bit unsigned value. -/
def to_signed (w : Nat) (n : Nat) : Int :=
  if n < 2 ^ (w - 1) then (n : Int) else (n : Int) - 2 ^ w

/-- Rust `as usize` cast of an i32 length on a 64-bit target: a negative
length wraps around to an astronomically large unsigned value. -/
def i32_as_usize (n : Int) : Nat := (n % (2 ^ 64 : Int)).toNat

/-- `source.read_u8()`: one byte off the stream. -/
def read_u8 : ByteStream → Except NbtError (Nat × ByteStream)
  | [] => .error .unexpectedEof
  | b :: r => .ok (b % 256, r)

/-- `source.read_exact(&mut buf)` with a buffer of `n` bytes. -/
def read_exact (n : Nat) (s : ByteStream) : Except NbtError (List Nat × ByteStream) :=
  if n ≤ s.length then .ok ((s.take n).map (fun b => b % 256), s.drop n)
  else .error .unexpectedEof

/-- Big-endian assembly of a byte list into an unsigned value. -/
def be_nat (bytes : List Nat) : Nat := bytes.foldl (fun acc b => acc * 256 + b) 0

/-- Sequencing of two stream readers (the `?` operator of the source). -/
def rbind {α β : Type} (rd1 : ByteStream → Except NbtError (α × ByteStream))
    (rd2 : α → ByteStream → Except NbtError (β × ByteStream))
    (s : ByteStream) : Except NbtError (β × ByteStream) :=
  match rd1 s with
  | .error e => .error e
  | .ok (a, s1) => rd2 a s1

/-- Apply a function to the value of a read result, keeping the stream. -/
def map_val {α β : Type} (f : α → β) (r : Except NbtError (α × ByteStream)) :
    Except NbtError (β × ByteStream) :=
  match r with
  | .error e => .error e
  | .ok (a, s) => .ok (f a, s)

/-- `read_uN::<BigEndian>` for `n` bytes. -/
def read_be (n : Nat) : ByteStream → Except NbtError (Nat × ByteStream) :=
  rbind (read_exact n) (fun bs s => .ok (be_nat bs, s))

/-- `source.read_i8()`. -/
def read_i8 (s : ByteStream) : Except NbtError (Int × ByteStream) :=
  map_val (to_signed 8) (read_u8 s)

/-- `source.read_i16::<BigEndian>()`. -/
def read_i16 (s : ByteStream) : Except NbtError (Int × ByteStream) :=
  map_val (to_signed 16) (read_be 2 s)

/-- `source.read_i32::<BigEndian>()`. -/
def read_i32 (s : ByteStream) : Except NbtError (Int × ByteStream) :=
  map_val (to_signed 32) (read_be 4 s)

/-- `source.read_i64::<BigEndian>()`. -/
def read_i64 (s : ByteStream) : Except NbtError (Int × ByteStream) :=
  map_val (to_signed 64) (read_be 8 s)

/-!  The string codec.  `read_string` (read.rs lines 122-137) reads a u16
byte count, that many bytes, and decodes them with the external cesu8
crate function `from_java_cesu8`.  Decoded text is modelled as the list of
its Unicode code points. -/

/-- Continuation byte of a multi-byte sequence. -/
def is_cont_byte (b : Nat) : Prop := 0x80 ≤ b ∧ b < 0xC0

instance (b : Nat) : Decidable (is_cont_byte b) := by
  unfold is_cont_byte; infer_instance

/-- Strict UTF-8 decoding (the behavior of Rust `str::from_utf8`):
one- to four-byte sequences, rejecting overlong forms, surrogate code
points and values above U+10FFFF.  Returns the code-point sequence. -/
def utf8_decode : List Nat → Option (List Nat)
  | [] => some []
  | b0 :: rest =>
    if b0 < 0x80 then (utf8_decode rest).map (fun t => b0 :: t)
    else if 0xC2 ≤ b0 ∧ b0 ≤ 0xDF then
      match rest with
      | b1 :: rest2 =>
        if is_cont_byte b1 then
          (utf8_decode rest2).map (fun t => ((b0 - 0xC0) * 64 + (b1 - 0x80)) :: t)
        else none
      | [] => none
    else if 0xE0 ≤ b0 ∧ b0 ≤ 0xEF then
      match rest with
      | b1 :: b2 :: rest3 =>
        if is_cont_byte b1 ∧ is_cont_byte b2 then
          let cp := (b0 - 0xE0) * 4096 + (b1 - 0x80) * 64 + (b2 - 0x80)
          if 0x800 ≤ cp ∧ ¬(0xD800 ≤ cp ∧ cp ≤ 0xDFFF) then
            (utf8_decode rest3).map (fun t => cp :: t)
          else none
        else none
      | _ => none
    else if 0xF0 ≤ b0 ∧ b0 ≤ 0xF4 then
      match rest with
      | b1 :: b2 :: b3 :: rest4 =>
        if is_cont_byte b1 ∧ is_cont_byte b2 ∧ is_cont_byte b3 then
          let cp := (b0 - 0xF0) * 262144 + (b1 - 0x80) * 4096 + (b2 - 0x80) * 64 + (b3 - 0x80)
          if 0x10000 ≤ cp ∧ cp ≤ 0x10FFFF then
            (utf8_decode rest4).map (fun t => cp :: t)
          else none
        else none
      | _ => none
    else none

/-- Modelled from the spec: the fallback decoding loop of the external
string codec (the cesu8 crate, not part of src/), used only for byte
sequences that are not valid standard UTF-8.  Per spec section 4.2 and
the glossary, the modified/Java-style encoding differs from standard
UTF-8 in the encoding of the null character (the two-byte overlong form
0xC0 0x80) and of supplementary characters (six-byte surrogate pairs). -/
def cesu8_java_fallback : List Nat → Option (List Nat)
  | [] => some []
  | b0 :: rest =>
    if b0 < 0x80 then (cesu8_java_fallback rest).map (fun t => b0 :: t)
    else if 0xC0 ≤ b0 ∧ b0 ≤ 0xDF then
      match rest with
      | b1 :: rest2 =>
        if is_cont_byte b1 then
          (cesu8_java_fallback rest2).map (fun t => ((b0 - 0xC0) * 64 + (b1 - 0x80)) :: t)
        else none
      | [] => none
    else if 0xE0 ≤ b0 ∧ b0 ≤ 0xEF then
      match rest with
      | b1 :: b2 :: rest3 =>
        if is_cont_byte b1 ∧ is_cont_byte b2 then
          let cp := (b0 - 0xE0) * 4096 + (b1 - 0x80) * 64 + (b2 - 0x80)
          if 0xD800 ≤ cp ∧ cp < 0xDC00 then
            match rest3 with
            | c0 :: c1 :: c2 :: rest6 =>
              if c0 = 0xED ∧ is_cont_byte c1 ∧ is_cont_byte c2 then
                let cp2 := (c0 - 0xE0) * 4096 + (c1 - 0x80) * 64 + (c2 - 0x80)
                if 0xDC00 ≤ cp2 ∧ cp2 < 0xE000 then
                  (cesu8_java_fallback rest6).map
                    (fun t => (0x10000 + (cp - 0xD800) * 1024 + (cp2 - 0xDC00)) :: t)
                else none
              else none
            | _ => none
          else if 0xDC00 ≤ cp ∧ cp < 0xE000 then none
          else (cesu8_java_fallback rest3).map (fun t => cp :: t)
        else none
      | _ => none
    else none

/-- `cesu8::from_java_cesu8`: the crate first tries standard UTF-8
(returning a borrowed slice when the bytes are already valid UTF-8) and
only then falls back to the CESU-8/Java decoding loop. -/
def from_java_cesu8 (bytes : List Nat) : Option (List Nat) :=
  match utf8_decode bytes with
  | some cps => some cps
  | none => cesu8_java_fallback bytes

/-- `read_string` (read.rs lines 122-137): u16 big-endian length, that
many bytes, decoded via `from_java_cesu8`; a decoding failure becomes an
InvalidData error. -/
def read_string : ByteStream → Except NbtError (List Nat × ByteStream) :=
  rbind (read_be 2) (fun len => rbind (read_exact len) (fun bytes s =>
    match from_java_cesu8 bytes with
    | some cps => .ok (cps, s)
    | none => .error .invalidStringEncoding))

/-!  The tag tree model.  The crate tag module is not part of src/; the
shapes below are modelled from the spec (section 3): a closed union over
the twelve value kinds, a List as an ordered sequence, and a Compound as
a name-to-tag mapping with overwrite-on-duplicate insertion. -/

/-- Modelled from the spec: the Tag Value union (spec section 3).  Float
and Double carry their raw big-endian bit patterns. -/
inductive NbtTag where
  | byte (v : Int)
  | short (v : Int)
  | int (v : Int)
  | long (v : Int)
  | float (bits : Nat)
  | double (bits : Nat)
  | byteArray (vs : List Int)
  | string (cps : List Nat)
  | list (vs : List NbtTag)
  | compound (entries : List (List Nat × NbtTag))
  | intArray (vs : List Int)
  | longArray (vs : List Int)

/-- Modelled from the spec: a Compound is a mapping from name to tag
(spec section 3), here an association list. -/
abbrev NbtCompound := List (List Nat × NbtTag)

/-- Modelled from the spec: `NbtCompound::insert` overwrites any prior
entry with the same name (spec sections 3 and 4.1). -/
def compound_insert (name : List Nat) (tag : NbtTag) (c : NbtCompound) : NbtCompound :=
  c.filter (fun e => e.1 != name) ++ [(name, tag)]

/-- Modelled from the spec: lookup of a name in a Compound. -/
def compound_get (c : NbtCompound) (name : List Nat) : Option NbtTag :=
  (c.find? (fun e => e.1 == name)).map (fun e => e.2)

/-- The element loop of the three array branches of read_tag_body: the
source allocates `vec![0; len]` and then assigns `len` sequentially read
elements; the observable result is the ordered list of the `len` reads. -/
def read_array {α : Type} (elem : ByteStream → Except NbtError (α × ByteStream)) :
    Nat → ByteStream → Except NbtError (List α × ByteStream)
  | 0 => fun s => .ok ([], s)
  | n + 1 => rbind elem (fun a => fun s => map_val (fun tl => a :: tl) (read_array elem n s))

/-- The length-prefixed array pattern of tag ids 0x7, 0xB, 0xC
(read.rs lines 44-53, 92-111): `read_i32` then `as usize`, then that
many element reads.  The intermediate `vec![0; len]` allocation sized by
the unchecked length has no counterpart in the value-level model. -/
def read_len_prefixed_array {α : Type}
    (elem : ByteStream → Except NbtError (α × ByteStream)) :
    ByteStream → Except NbtError (List α × ByteStream) :=
  rbind read_i32 (fun len => read_array elem (i32_as_usize len))

mutual

/-- `read_tag_body` (read.rs lines 36-120), with an explicit fuel
parameter bounding the recursion; `read_tag_body_run` instantiates the
fuel so that it is never exhausted.  Dispatch over the tag id follows the
source match arm for arm. -/
def read_tag_body (fuel : Nat) (id : Nat) (s : ByteStream) :
    Except NbtError (NbtTag × ByteStream) :=
  match fuel with
  | 0 => .error .outOfFuel
  | fuel + 1 =>
    if id = 1 then map_val NbtTag.byte (read_i8 s)
    else if id = 2 then map_val NbtTag.short (read_i16 s)
    else if id = 3 then map_val NbtTag.int (read_i32 s)
    else if id = 4 then map_val NbtTag.long (read_i64 s)
    else if id = 5 then map_val NbtTag.float (read_be 4 s)
    else if id = 6 then map_val NbtTag.double (read_be 8 s)
    else if id = 7 then map_val NbtTag.byteArray (read_len_prefixed_array read_i8 s)
    else if id = 8 then map_val NbtTag.string (read_string s)
    else if id = 9 then
      match read_u8 s with
      | .error e => .error e
      | .ok (type_id, s1) =>
        match read_i32 s1 with
        | .error e => .error e
        | .ok (len_i, s2) =>
          let len := i32_as_usize len_i
          if 12 < type_id ∨ (type_id = 0 ∧ 0 < len) then .error .invalidListType
          else if len = 0 then .ok (NbtTag.list [], s2)
          else
            match read_list_elems fuel type_id len s2 with
            | .error e => .error e
            | .ok (elems, s3) => .ok (NbtTag.list elems, s3)
    else if id = 10 then
      match read_u8 s with
      | .error e => .error e
      | .ok (tag_id, s1) =>
        match read_compound_loop fuel tag_id [] s1 with
        | .error e => .error e
        | .ok (c, s2) => .ok (NbtTag.compound c, s2)
    else if id = 11 then map_val NbtTag.intArray (read_len_prefixed_array read_i32 s)
    else if id = 12 then map_val NbtTag.longArray (read_len_prefixed_array read_i64 s)
    else .error .invalidTagType
termination_by structural fuel

/-- The `while tag_id != 0x0` loop of the Compound branch (read.rs lines
78-91).  `tag_id` is the type byte most recently read; each iteration
reads a name, one tag body, inserts the pair (overwriting duplicates),
and reads the next type byte. -/
def read_compound_loop (fuel : Nat) (tag_id : Nat) (compound : NbtCompound)
    (s : ByteStream) : Except NbtError (NbtCompound × ByteStream) :=
  if tag_id = 0 then .ok (compound, s)
  else
    match fuel with
    | 0 => .error .outOfFuel
    | fuel + 1 =>
      match read_string s with
      | .error e => .error e
      | .ok (name, s1) =>
        match read_tag_body fuel tag_id s1 with
        | .error e => .error e
        | .ok (tag, s2) =>
          match read_u8 s2 with
          | .error e => .error e
          | .ok (next_id, s3) =>
            read_compound_loop fuel next_id (compound_insert name tag compound) s3
termination_by structural fuel

/-- The element loop of the List branch (read.rs lines 71-74): `len`
recursive decodes of the declared element type, collected in order. -/
def read_list_elems (fuel : Nat) (type_id : Nat) (n : Nat) (s : ByteStream) :
    Except NbtError (List NbtTag × ByteStream) :=
  match n with
  | 0 => .ok ([], s)
  | n + 1 =>
    match fuel with
    | 0 => .error .outOfFuel
    | fuel + 1 =>
      match read_tag_body fuel type_id s with
      | .error e => .error e
      | .ok (tag, s1) =>
        match read_list_elems fuel type_id n s1 with
        | .error e => .error e
        | .ok (tl, s2) => .ok (tag :: tl, s2)
termination_by structural fuel

end

/-- The fuel-free semantics of read_tag_body: fuel `2 * length + 2`
suffices for any stream (proved below: the out-of-fuel artifact never
occurs at this fuel). -/
def read_tag_body_run (id : Nat) (s : ByteStream) : Except NbtError (NbtTag × ByteStream) :=
  read_tag_body (2 * s.length + 2) id s

/-- `read_nbt_uncompressed` (read.rs lines 7-22).  The `unreachable!`
panic of the source (hit only if read_tag_body returned Ok on a
non-Compound value) is modelled by the outer Option: `none` is the
panic, every normal return (Ok or Err) is `some`. -/
def read_nbt_uncompressed (s : ByteStream) :
    Option (Except NbtError (NbtCompound × List Nat × ByteStream)) :=
  match read_u8 s with
  | .error e => some (.error e)
  | .ok (root_id, s1) =>
    if root_id ≠ 10 then some (.error .notCompoundAtRoot)
    else
      match read_string s1 with
      | .error e => some (.error e)
      | .ok (root_name, s2) =>
        match read_tag_body_run 10 s2 with
        | .ok (NbtTag.compound compound, s3) => some (.ok (compound, root_name, s3))
        | .error e => some (.error e)
        | .ok _ => none

/-!  The representation-error conversions of src/repr.rs. -/

/-- `NbtStructureError` (repr.rs lines 11-18). -/
inductive NbtStructureError where
  | typeMismatch
  | invalidIndex
  | missingTag
deriving DecidableEq

/-- `NbtReprError<E>` (repr.rs lines 40-45). -/
inductive NbtReprError (E : Type) where
  | Structure (e : NbtStructureError)
  | Custom (e : E)
deriving DecidableEq

/-- `impl From<NbtStructureError> for NbtReprError<E>` (repr.rs 70-74). -/
def nbt_repr_error_from_structure {E : Type} (x : NbtStructureError) : NbtReprError E :=
  NbtReprError.Structure x

/-- `impl From<NbtReprError<NbtStructureError>> for NbtStructureError`
(repr.rs 28-35): unwrap either variant. -/
def nbt_structure_error_from_repr (x : NbtReprError NbtStructureError) : NbtStructureError :=
  match x with
  | NbtReprError.Structure e => e
  | NbtReprError.Custom e => e

/-- The ten non-recursive match arms of read_tag_body, as one table from
tag id to reader. -/
def simple_reader (id : Nat) : Option (ByteStream → Except NbtError (NbtTag × ByteStream)) :=
  if id = 1 then some (fun s => map_val NbtTag.byte (read_i8 s))
  else if id = 2 then some (fun s => map_val NbtTag.short (read_i16 s))
  else if id = 3 then some (fun s => map_val NbtTag.int (read_i32 s))
  else if id = 4 then some (fun s => map_val NbtTag.long (read_i64 s))
  else if id = 5 then some (fun s => map_val NbtTag.float (read_be 4 s))
  else if id = 6 then some (fun s => map_val NbtTag.double (read_be 8 s))
  else if id = 7 then some (fun s => map_val NbtTag.byteArray (read_len_prefixed_array read_i8 s))
  else if id = 8 then some (fun s => map_val NbtTag.string (read_string s))
  else if id = 11 then some (fun s => map_val NbtTag.intArray (read_len_prefixed_array read_i32 s))
  else if id = 12 then some (fun s => map_val NbtTag.longArray (read_len_prefixed_array read_i64 s))
  else none

/-- Specification-side reading of a compound body, following the words of
the spec (section 4.1, Compound): the raw sequence of (name, value)
entries in decode order, collected without any overwriting.  Compared
below with the accumulator loop of the source, which inserts each entry
into the mapping as it goes. -/
def compound_entries_spec (fuel : Nat) (tag_id : Nat) (s : ByteStream) :
    Except NbtError (List (List Nat × NbtTag) × ByteStream) :=
  if tag_id = 0 then .ok ([], s)
  else
    match fuel with
    | 0 => .error .outOfFuel
    | fuel + 1 =>
      match read_string s with
      | .error e => .error e
      | .ok (name, s1) =>
        match read_tag_body fuel tag_id s1 with
        | .error e => .error e
        | .ok (tag, s2) =>
          match read_u8 s2 with
          | .error e => .error e
          | .ok (next_id, s3) =>
            match compound_entries_spec fuel next_id s3 with
            | .error e => .error e
            | .ok (es, r) => .ok ((name, tag) :: es, r)
termination_by structural fuel

/-- The well-behavedness facts shared by the primitive readers: a
successful read splits the stream into a consumed prefix and the
returned remainder; re-running on the consumed prefix alone succeeds
with the same value and empty remainder; appending data to the stream
does not change the value or the consumed prefix; the reader never
reports the fuel artifact. -/
structure ReaderOk {α : Type} (rd : ByteStream → Except NbtError (α × ByteStream)) : Prop where
  trunc : ∀ s a r, rd s = .ok (a, r) → ∃ c, s = c ++ r ∧ rd c = .ok (a, [])
  extend : ∀ s a r t, rd s = .ok (a, r) → rd (s ++ t) = .ok (a, r ++ t)
  no_fuel : ∀ s, rd s ≠ .error .outOfFuel

/-- A reader that always consumes at least one byte when it succeeds. -/
def ReaderConsumes {α : Type} (rd : ByteStream → Except NbtError (α × ByteStream)) : Prop :=
  ∀ s a r, rd s = .ok (a, r) → r.length < s.length

/-!  Unfolding lemmas for the fuelled mutual recursion. -/

/-- With no fuel, read_tag_body reports fuel exhaustion. -/
theorem read_tag_body_zero (id : Nat) (s : ByteStream) :
    read_tag_body 0 id s = .error .outOfFuel := rfl

/-- Unfolding of read_tag_body at positive fuel: the full dispatch. -/
theorem read_tag_body_succ_eq (f id : Nat) (s : ByteStream) :
    read_tag_body (f + 1) id s =
      (if id = 1 then map_val NbtTag.byte (read_i8 s)
      else if id = 2 then map_val NbtTag.short (read_i16 s)
      else if id = 3 then map_val NbtTag.int (read_i32 s)
      else if id = 4 then map_val NbtTag.long (read_i64 s)
      else if id = 5 then map_val NbtTag.float (read_be 4 s)
      else if id = 6 then map_val NbtTag.double (read_be 8 s)
      else if id = 7 then map_val NbtTag.byteArray (read_len_prefixed_array read_i8 s)
      else if id = 8 then map_val NbtTag.string (read_string s)
      else if id = 9 then
        match read_u8 s with
        | .error e => .error e
        | .ok (type_id, s1) =>
          match read_i32 s1 with
          | .error e => .error e
          | .ok (len_i, s2) =>
            let len := i32_as_usize len_i
            if 12 < type_id ∨ (type_id = 0 ∧ 0 < len) then .error .invalidListType
            else if len = 0 then .ok (NbtTag.list [], s2)
            else
              match read_list_elems f type_id len s2 with
              | .error e => .error e
              | .ok (elems, s3) => .ok (NbtTag.list elems, s3)
      else if id = 10 then
        match read_u8 s with
        | .error e => .error e
        | .ok (tag_id, s1) =>
          match read_compound_loop f tag_id [] s1 with
          | .error e => .error e
          | .ok (c, s2) => .ok (NbtTag.compound c, s2)
      else if id = 11 then map_val NbtTag.intArray (read_len_prefixed_array read_i32 s)
      else if id = 12 then map_val NbtTag.longArray (read_len_prefixed_array read_i64 s)
      else .error .invalidTagType) := rfl

set_option maxHeartbeats 2000000 in
/-- On a non-recursive tag id, read_tag_body with positive fuel is the
corresponding simple reader. -/
theorem read_tag_body_succ_simple {id : Nat} {rd} (h : simple_reader id = some rd)
    (f : Nat) (s : ByteStream) : read_tag_body (f + 1) id s = rd s := by
  unfold simple_reader at h
  split_ifs at h
  all_goals injection h with h
  all_goals subst h
  all_goals subst id
  all_goals rfl

/-- Unfolding of the List branch (tag id 0x9). -/
theorem read_tag_body_succ_nine (f : Nat) (s : ByteStream) :
    read_tag_body (f + 1) 9 s =
      match read_u8 s with
      | .error e => .error e
      | .ok (type_id, s1) =>
        match read_i32 s1 with
        | .error e => .error e
        | .ok (len_i, s2) =>
          let len := i32_as_usize len_i
          if 12 < type_id ∨ (type_id = 0 ∧ 0 < len) then .error .invalidListType
          else if len = 0 then .ok (NbtTag.list [], s2)
          else
            match read_list_elems f type_id len s2 with
            | .error e => .error e
            | .ok (elems, s3) => .ok (NbtTag.list elems, s3) := rfl

/-- Unfolding of the Compound branch (tag id 0xA). -/
theorem read_tag_body_succ_ten (f : Nat) (s : ByteStream) :
    read_tag_body (f + 1) 10 s =
      match read_u8 s with
      | .error e => .error e
      | .ok (tag_id, s1) =>
        match read_compound_loop f tag_id [] s1 with
        | .error e => .error e
        | .ok (c, s2) => .ok (NbtTag.compound c, s2) := rfl

set_option maxHeartbeats 2000000 in
/-- Any tag id outside 0x1..0xC is rejected. -/
theorem read_tag_body_succ_other {id : Nat} (h9 : id ≠ 9) (h10 : id ≠ 10)
    (hs : simple_reader id = none) (f : Nat) (s : ByteStream) :
    read_tag_body (f + 1) id s = .error .invalidTagType := by
  unfold simple_reader at hs
  rw [read_tag_body_succ_eq]
  split_ifs at hs
  simp_all

/-- Unfolding of the compound loop when the sentinel was just read. -/
theorem read_compound_loop_sentinel (f : Nat) (c : NbtCompound) (s : ByteStream) :
    read_compound_loop f 0 c s = .ok (c, s) := by
  cases f <;> rfl

/-- Unfolding of the compound loop on a non-sentinel type byte. -/
theorem read_compound_loop_step {tag_id : Nat} (h : tag_id ≠ 0) (f : Nat)
    (c : NbtCompound) (s : ByteStream) :
    read_compound_loop f tag_id c s =
      match f with
      | 0 => .error .outOfFuel
      | f + 1 =>
        match read_string s with
        | .error e => .error e
        | .ok (name, s1) =>
          match read_tag_body f tag_id s1 with
          | .error e => .error e
          | .ok (tag, s2) =>
            match read_u8 s2 with
            | .error e => .error e
            | .ok (next_id, s3) =>
              read_compound_loop f next_id (compound_insert name tag c) s3 := by
  cases f <;> · show (if tag_id = 0 then _ else _) = _; rw [if_neg h]

/-- Unfolding of the list-element loop at count zero. -/
theorem read_list_elems_zero (f type_id : Nat) (s : ByteStream) :
    read_list_elems f type_id 0 s = .ok ([], s) := by
  cases f <;> rfl

/-- Unfolding of the list-element loop at a positive count. -/
theorem read_list_elems_succ (f type_id n : Nat) (s : ByteStream) :
    read_list_elems f type_id (n + 1) s =
      match f with
      | 0 => .error .outOfFuel
      | f + 1 =>
        match read_tag_body f type_id s with
        | .error e => .error e
        | .ok (tag, s1) =>
          match read_list_elems f type_id n s1 with
          | .error e => .error e
          | .ok (tl, s2) => .ok (tag :: tl, s2) := by
  cases f <;> rfl

/-- read_tag_body_run exposes a successor fuel value. -/
theorem read_tag_body_run_succ (id : Nat) (s : ByteStream) :
    read_tag_body_run id s = read_tag_body (2 * s.length + 1 + 1) id s := rfl

/-- Unfolding of compound_entries_spec on the sentinel. -/
theorem compound_entries_spec_sentinel (f : Nat) (s : ByteStream) :
    compound_entries_spec f 0 s = .ok ([], s) := by
  cases f <;> rfl

/-- Unfolding of compound_entries_spec on a non-sentinel type byte. -/
theorem compound_entries_spec_step {tag_id : Nat} (h : tag_id ≠ 0) (f : Nat)
    (s : ByteStream) :
    compound_entries_spec f tag_id s =
      match f with
      | 0 => .error .outOfFuel
      | f + 1 =>
        match read_string s with
        | .error e => .error e
        | .ok (name, s1) =>
          match read_tag_body f tag_id s1 with
          | .error e => .error e
          | .ok (tag, s2) =>
            match read_u8 s2 with
            | .error e => .error e
            | .ok (next_id, s3) =>
              match compound_entries_spec f next_id s3 with
              | .error e => .error e
              | .ok (es, r) => .ok ((name, tag) :: es, r) := by
  cases f <;> · show (if tag_id = 0 then _ else _) = _; rw [if_neg h]

/-!  Claim C9: round-tripping a structural error through the
representation error type. -/

/-- C9: for every structural error e (TypeMismatch, InvalidIndex or
MissingTag), converting e into NbtReprError via From and converting back
via From of NbtReprError over NbtStructureError recovers e. -/
theorem claim_C9 :
    ∀ e : NbtStructureError,
      nbt_structure_error_from_repr (nbt_repr_error_from_structure e) = e :=
  fun _ => rfl

/-!  Claim C8: string-codec behavior on the one-byte payload 0x00. -/

/-- C8 counterexample: the claim asserts that decoding the payload [0x00]
under the modified encoding succeeds with a single null character AND
that this differs from strict UTF-8 behavior for the same input.  The
second part is false: [0x00] is valid strict UTF-8 and decodes to the
same single null character, so the two decoders agree on this input. -/
theorem claim_C8_counterexample :
    ¬(from_java_cesu8 [0] = some [0] ∧ from_java_cesu8 [0] ≠ utf8_decode [0]) :=
  fun h => h.2 rfl

/-- C8 (amended): decoding the single-byte string payload [0x00] under
the modified/Java-style encoding succeeds and yields a single null
character (as does the full read_string framing on stream
[0x00, 0x01, 0x00]); strict UTF-8 decoding of the same payload yields
the same result.  The modified encoding differs from strict UTF-8 not on
[0x00] but on the two-byte overlong null [0xC0, 0x80], which it accepts
and strict UTF-8 rejects. -/
theorem claim_C8 :
    read_string [0, 1, 0] = .ok ([0], []) ∧
    from_java_cesu8 [0] = some [0] ∧ utf8_decode [0] = some [0] ∧
    from_java_cesu8 [192, 128] = some [0] ∧ utf8_decode [192, 128] = none :=
  ⟨rfl, rfl, rfl, rfl, rfl⟩

/-!  Claim C4: hostile array lengths. -/

/-- A positive-count element loop forwards the failure of the first
element read. -/
theorem read_array_err_head {α : Type} (elem : ByteStream → Except NbtError (α × ByteStream))
    {n : Nat} (hn : 0 < n) {s : ByteStream} {e : NbtError} (he : elem s = .error e) :
    read_array elem n s = .error e := by
  cases n with
  | zero => exact absurd hn (by omega)
  | succ n => simp [read_array, rbind, he]

/-- C4: evaluation at the failing input.  The byte-array body
[0xFF, 0xFF, 0xFF, 0xFF] declares length -1; the decoder converts it
with `as usize` to 2^64 - 1 and proceeds straight into reading that many
elements (in Rust, after first attempting the allocation
`vec![0_i8; 18446744073709551615]`), ending in an end-of-stream error;
no fail-fast length validation is performed before the allocation. -/
theorem claim_C4 :
    read_i32 [255, 255, 255, 255] = .ok (-1, []) ∧
    i32_as_usize (-1) = 2 ^ 64 - 1 ∧
    read_tag_body_run 7 [255, 255, 255, 255] = .error .unexpectedEof := by
  refine ⟨rfl, by decide, ?_⟩
  have h7 : simple_reader 7
      = some (fun s => map_val NbtTag.byteArray (read_len_prefixed_array read_i8 s)) := rfl
  rw [read_tag_body_run_succ, read_tag_body_succ_simple h7]
  show map_val NbtTag.byteArray (read_array read_i8 (i32_as_usize (-1)) []) = _
  rw [read_array_err_head read_i8 (by decide) (rfl : read_i8 [] = .error .unexpectedEof)]
  rfl

/-!  Claim C6: zero-length lists. -/

/-- C6 counterexample: the element-type identifier byte precedes the
length on the wire and is consumed even when the declared length is
zero.  Decoding the list body [0x01, 0, 0, 0, 0, 77] consumes five
bytes, including the leading element-type byte 0x01 (remainder [77]);
and a list body holding only a zero length, with no element-type byte
before it, fails with an end-of-stream error instead of decoding to an
empty list. -/
theorem claim_C6_counterexample :
    read_tag_body_run 9 [1, 0, 0, 0, 0, 77] = .ok (.list [], [77]) ∧
    read_tag_body_run 9 [0, 0, 0, 0] = .error .unexpectedEof :=
  ⟨rfl, rfl⟩

/-- read_i32 on four zero bytes. -/
theorem read_i32_four_zeros (rest : ByteStream) :
    read_i32 (0 :: 0 :: 0 :: 0 :: rest) = .ok (0, rest) := by
  simp [read_i32, read_be, rbind, read_exact, map_val, be_nat, to_signed]

/-- C6 (amended): when decoding a list body whose declared length is
zero, the decoder returns an empty list immediately, reading no element
bodies; the element-type identifier byte (which precedes the length on
the wire) has by then already been consumed, so exactly five bytes are
consumed: the element-type byte and the four length bytes. -/
theorem claim_C6 (et : Nat) (rest : ByteStream) (h : et % 256 ≤ 12) :
    read_tag_body_run 9 (et :: 0 :: 0 :: 0 :: 0 :: rest) = .ok (.list [], rest) := by
  rw [read_tag_body_run_succ, read_tag_body_succ_nine]
  simp only [read_u8, read_i32_four_zeros, show i32_as_usize 0 = 0 from rfl]
  rw [if_neg (by omega), if_pos trivial]

/-- C6 witness: the amended claim at element type 3 and trailing data. -/
theorem claim_C6_witness :
    read_tag_body_run 9 [3, 0, 0, 0, 0, 9] = .ok (.list [], [9]) :=
  claim_C6 3 [9] (by decide)

/-!  Claim C3: the list-type validity checks. -/

/-- C3: on a list body whose declared element type and declared length
have been read, decoding fails with the invalid-list-type error whenever
the element type exceeds 0xC or is the end-of-compound sentinel with a
positive length; the sentinel element type with length zero decodes to
an empty list. -/
theorem claim_C3 (s s1 s2 : ByteStream) (type_id : Nat) (len_i : Int)
    (hu : read_u8 s = .ok (type_id, s1)) (hl : read_i32 s1 = .ok (len_i, s2)) :
    (12 < type_id ∨ (type_id = 0 ∧ 0 < i32_as_usize len_i) →
      read_tag_body_run 9 s = .error .invalidListType) ∧
    (type_id = 0 → i32_as_usize len_i = 0 →
      read_tag_body_run 9 s = .ok (.list [], s2)) := by
  rw [read_tag_body_run_succ, read_tag_body_succ_nine]
  simp only [hu, hl]
  constructor
  · intro hc
    rw [if_pos hc]
  · intro h0 hlen
    rw [if_neg (by simp [h0, hlen]), if_pos hlen]

/-- C3 witness: element type 13 is rejected, sentinel element type with
length 1 is rejected, sentinel element type with length 0 yields the
empty list. -/
theorem claim_C3_witness :
    read_tag_body_run 9 [13, 0, 0, 0, 0] = .error .invalidListType ∧
    read_tag_body_run 9 [0, 0, 0, 0, 1] = .error .invalidListType ∧
    read_tag_body_run 9 [0, 0, 0, 0, 0] = .ok (.list [], []) := by
  refine ⟨?_, ?_, ?_⟩
  · exact (claim_C3 [13, 0, 0, 0, 0] [0, 0, 0, 0] [] 13 0 rfl rfl).1 (Or.inl (by decide))
  · exact (claim_C3 [0, 0, 0, 0, 1] [0, 0, 0, 1] [] 0 1 rfl rfl).1 (Or.inr ⟨rfl, by decide⟩)
  · exact (claim_C3 [0, 0, 0, 0, 0] [0, 0, 0, 0] [] 0 0 rfl rfl).2 rfl (by decide)

/-!  Claims C10 and C5: the root entry point. -/

/-- A successful decode at tag id 0xA always produces the Compound
variant: the branch for 0xA wraps the loop result in NbtTag.compound. -/
theorem read_tag_body_ten_shape {f : Nat} {s : ByteStream} {t : NbtTag} {r : ByteStream}
    (h : read_tag_body f 10 s = .ok (t, r)) : ∃ c, t = NbtTag.compound c := by
  cases f with
  | zero => rw [read_tag_body_zero] at h; exact absurd h (by simp)
  | succ f =>
    rw [read_tag_body_succ_ten] at h
    split at h
    · exact absurd h (by simp)
    · split at h
      · exact absurd h (by simp)
      · injection h with h
        injection h with h1 h2
        exact ⟨_, h1.symm⟩

/-- C10: for every input stream, the root entry point never reaches the
catch-all unreachable branch (modelled as the `none` result): whenever
read_tag_body returns Ok for type identifier 0xA, the result is the
Compound variant. -/
theorem claim_C10 : ∀ s : ByteStream, read_nbt_uncompressed s ≠ none := by
  intro s
  unfold read_nbt_uncompressed
  cases hu : read_u8 s with
  | error e => simp
  | ok p =>
    obtain ⟨root_id, s1⟩ := p
    dsimp only
    by_cases hroot : root_id ≠ 10
    · simp [hroot]
    · rw [if_neg hroot]
      cases hs : read_string s1 with
      | error e => simp
      | ok q =>
        obtain ⟨root_name, s2⟩ := q
        dsimp only
        cases ht : read_tag_body_run 10 s2 with
        | error e => simp
        | ok u =>
          obtain ⟨t, s3⟩ := u
          obtain ⟨c, rfl⟩ := read_tag_body_ten_shape (f := 2 * s2.length + 2) ht
          simp

/-- C5: a stream whose first byte is not the Compound identifier 0x0A is
rejected immediately with the root-framing error, whatever the rest of
the stream holds; a stream whose first byte is 0x0A has its root name
read, one compound body decoded, and the (compound, name) pair
returned. -/
theorem claim_C5 :
    (∀ b rest, b % 256 ≠ 10 →
      read_nbt_uncompressed (b :: rest) = some (.error .notCompoundAtRoot)) ∧
    (∀ s name s2 c s3, read_string s = .ok (name, s2) →
      read_tag_body_run 10 s2 = .ok (.compound c, s3) →
      read_nbt_uncompressed (10 :: s) = some (.ok (c, name, s3))) := by
  constructor
  · intro b rest h
    unfold read_nbt_uncompressed
    simp only [read_u8]
    rw [if_pos h]
  · intro s name s2 c s3 h1 h2
    unfold read_nbt_uncompressed
    simp only [read_u8, Nat.reduceMod, h1, h2]
    rw [if_neg (by simp)]

/-- C5 witness: first byte 0x01 is rejected with the framing error; the
four-byte document [0x0A, 0, 0, 0] (empty root name, empty compound)
decodes to the empty compound named by the empty string. -/
theorem claim_C5_witness :
    read_nbt_uncompressed [1] = some (.error .notCompoundAtRoot) ∧
    read_nbt_uncompressed [10, 0, 0, 0] = some (.ok ([], [], [])) := by
  constructor
  · exact claim_C5.1 1 [] (by decide)
  · exact claim_C5.2 [0, 0, 0] [] [0] [] [] rfl rfl

/-!  Well-behavedness of the primitive readers. -/

/-- Characterization of a successful one-byte read. -/
theorem read_u8_ok_iff {s : ByteStream} {a : Nat} {r : ByteStream} :
    read_u8 s = .ok (a, r) ↔ ∃ b, s = b :: r ∧ a = b % 256 := by
  cases s with
  | nil => simp [read_u8]
  | cons b tl =>
    simp only [read_u8, Except.ok.injEq, Prod.mk.injEq, List.cons.injEq]
    constructor
    · rintro ⟨h1, h2⟩
      exact ⟨b, ⟨rfl, h2⟩, h1.symm⟩
    · rintro ⟨b2, ⟨hb, ht⟩, ha⟩
      subst hb; subst ht
      exact ⟨ha.symm, rfl⟩

/-- Characterization of a successful exact read. -/
theorem read_exact_ok {n : Nat} {s : ByteStream} {a : List Nat} {r : ByteStream}
    (h : read_exact n s = .ok (a, r)) :
    n ≤ s.length ∧ a = (s.take n).map (fun b => b % 256) ∧ r = s.drop n := by
  unfold read_exact at h
  split_ifs at h with hle
  · injection h with h
    injection h with h1 h2
    exact ⟨hle, h1.symm, h2.symm⟩

/-- Characterization of a successful map_val result. -/
theorem map_val_ok_iff {α β : Type} {f : α → β} {x : Except NbtError (α × ByteStream)}
    {b : β} {r : ByteStream} :
    map_val f x = .ok (b, r) ↔ ∃ a, x = .ok (a, r) ∧ b = f a := by
  cases x with
  | error e => simp [map_val]
  | ok p =>
    obtain ⟨a, s⟩ := p
    simp only [map_val, Except.ok.injEq, Prod.mk.injEq]
    constructor
    · rintro ⟨h1, h2⟩
      exact ⟨a, ⟨rfl, h2⟩, h1.symm⟩
    · rintro ⟨a2, ⟨ha, hs⟩, hb⟩
      exact ⟨by rw [hb, ha], hs⟩

theorem readerOk_read_u8 : ReaderOk read_u8 := by
  refine ⟨?_, ?_, ?_⟩
  · intro s a r h
    obtain ⟨b, rfl, rfl⟩ := read_u8_ok_iff.mp h
    exact ⟨[b], rfl, rfl⟩
  · intro s a r t h
    obtain ⟨b, rfl, rfl⟩ := read_u8_ok_iff.mp h
    rfl
  · intro s h
    cases s <;> simp [read_u8] at h

theorem readerOk_read_exact (n : Nat) : ReaderOk (read_exact n) := by
  refine ⟨?_, ?_, ?_⟩
  · intro s a r h
    obtain ⟨hle, ha, hr⟩ := read_exact_ok h
    refine ⟨s.take n, by rw [hr, List.take_append_drop], ?_⟩
    unfold read_exact
    rw [if_pos (show n ≤ (s.take n).length by rw [List.length_take]; omega)]
    have h1 : (s.take n).take n = s.take n := by rw [List.take_take, Nat.min_self]
    have h2 : (s.take n).drop n = [] := by
      apply List.drop_eq_nil_of_le
      rw [List.length_take]
      omega
    rw [h1, h2, ha]
  · intro s a r t h
    obtain ⟨hle, ha, hr⟩ := read_exact_ok h
    unfold read_exact
    rw [if_pos (by rw [List.length_append]; omega)]
    rw [List.take_append_of_le_length hle, List.drop_append_of_le_length hle, ha, hr]
  · intro s h
    unfold read_exact at h
    split_ifs at h
    simp at h

theorem readerOk_rbind {α β : Type} {rd1 : ByteStream → Except NbtError (α × ByteStream)}
    {rd2 : α → ByteStream → Except NbtError (β × ByteStream)}
    (h1 : ReaderOk rd1) (h2 : ∀ a, ReaderOk (rd2 a)) : ReaderOk (rbind rd1 rd2) := by
  refine ⟨?_, ?_, ?_⟩
  · intro s b r h
    unfold rbind at h
    cases hr1 : rd1 s with
    | error e => rw [hr1] at h; exact absurd h (by simp)
    | ok p =>
      obtain ⟨a, s1⟩ := p
      rw [hr1] at h
      dsimp only at h
      obtain ⟨c1, rfl, hc1⟩ := h1.trunc _ _ _ hr1
      obtain ⟨c2, rfl, hc2⟩ := (h2 a).trunc _ _ _ h
      refine ⟨c1 ++ c2, by rw [List.append_assoc], ?_⟩
      unfold rbind
      rw [h1.extend _ _ _ c2 hc1]
      exact hc2
  · intro s b r t h
    unfold rbind at h ⊢
    cases hr1 : rd1 s with
    | error e => rw [hr1] at h; exact absurd h (by simp)
    | ok p =>
      obtain ⟨a, s1⟩ := p
      rw [hr1] at h
      dsimp only at h
      rw [h1.extend _ _ _ t hr1]
      exact (h2 a).extend _ _ _ t h
  · intro s h
    unfold rbind at h
    cases hr1 : rd1 s with
    | error e =>
      rw [hr1] at h
      injection h with h
      subst h
      exact h1.no_fuel s hr1
    | ok p =>
      obtain ⟨a, s1⟩ := p
      rw [hr1] at h
      dsimp only at h
      exact (h2 a).no_fuel s1 h

theorem readerOk_map_val {α β : Type} {rd : ByteStream → Except NbtError (α × ByteStream)}
    (f : α → β) (h : ReaderOk rd) : ReaderOk (fun s => map_val f (rd s)) := by
  refine ⟨?_, ?_, ?_⟩
  · intro s b r hx
    obtain ⟨a, ha, rfl⟩ := map_val_ok_iff.mp hx
    obtain ⟨c, rfl, hc⟩ := h.trunc _ _ _ ha
    exact ⟨c, rfl, by rw [hc]; rfl⟩
  · intro s b r t hx
    obtain ⟨a, ha, rfl⟩ := map_val_ok_iff.mp hx
    show map_val f (rd (s ++ t)) = _
    rw [h.extend _ _ _ t ha]
    rfl
  · intro s hx
    cases hr : rd s with
    | error e =>
      rw [hr] at hx
      dsimp only [map_val] at hx
      injection hx with hx
      subst hx
      exact h.no_fuel s hr
    | ok p =>
      rw [hr] at hx
      dsimp only [map_val] at hx
      exact absurd hx (by simp)

theorem readerOk_pure {α : Type} (v : α) : ReaderOk (fun s => (.ok (v, s) : Except NbtError (α × ByteStream))) := by
  refine ⟨?_, ?_, ?_⟩
  · intro s a r h
    injection h with h
    injection h with h1 h2
    exact ⟨[], by rw [List.nil_append, h2], by rw [h1]⟩
  · intro s a r t h
    injection h with h
    injection h with h1 h2
    rw [h1, h2]
  · intro s h
    exact absurd h (by simp)

theorem readerOk_fail {α : Type} {e : NbtError} (he : e ≠ .outOfFuel) :
    ReaderOk (fun _ => (.error e : Except NbtError (α × ByteStream))) := by
  refine ⟨?_, ?_, ?_⟩
  · intro s a r h
    exact absurd h (by simp)
  · intro s a r t h
    exact absurd h (by simp)
  · intro s h
    injection h with h
    exact he h

theorem readerOk_read_be (n : Nat) : ReaderOk (read_be n) :=
  readerOk_rbind (readerOk_read_exact n) (fun bs => readerOk_pure (be_nat bs))

theorem readerOk_read_i8 : ReaderOk read_i8 :=
  readerOk_map_val (to_signed 8) readerOk_read_u8

theorem readerOk_read_i16 : ReaderOk read_i16 :=
  readerOk_map_val (to_signed 16) (readerOk_read_be 2)

theorem readerOk_read_i32 : ReaderOk read_i32 :=
  readerOk_map_val (to_signed 32) (readerOk_read_be 4)

theorem readerOk_read_i64 : ReaderOk read_i64 :=
  readerOk_map_val (to_signed 64) (readerOk_read_be 8)

/-- The second half of read_string: the byte payload and its decoding. -/
theorem readerOk_string_tail (len : Nat) :
    ReaderOk (rbind (read_exact len) (fun bytes s =>
      match from_java_cesu8 bytes with
      | some cps => .ok (cps, s)
      | none => .error .invalidStringEncoding)) := by
  refine readerOk_rbind (readerOk_read_exact len) (fun bytes => ?_)
  cases h : from_java_cesu8 bytes with
  | some cps =>
    simp only [h]
    exact readerOk_pure cps
  | none =>
    simp only [h]
    exact readerOk_fail (by simp)

theorem readerOk_read_string : ReaderOk read_string :=
  readerOk_rbind (readerOk_read_be 2) readerOk_string_tail

theorem readerOk_read_array {α : Type}
    {elem : ByteStream → Except NbtError (α × ByteStream)} (he : ReaderOk elem) :
    ∀ n, ReaderOk (read_array elem n) := by
  intro n
  induction n with
  | zero => exact readerOk_pure []
  | succ n ih => exact readerOk_rbind he (fun a => readerOk_map_val (fun tl => a :: tl) ih)

theorem readerOk_read_len_prefixed_array {α : Type}
    {elem : ByteStream → Except NbtError (α × ByteStream)} (he : ReaderOk elem) :
    ReaderOk (read_len_prefixed_array elem) :=
  readerOk_rbind readerOk_read_i32 (fun len => readerOk_read_array he (i32_as_usize len))

theorem consumes_read_u8 : ReaderConsumes read_u8 := by
  intro s a r h
  obtain ⟨b, rfl, rfl⟩ := read_u8_ok_iff.mp h
  simp

theorem consumes_read_exact {n : Nat} (hn : 0 < n) : ReaderConsumes (read_exact n) := by
  intro s a r h
  obtain ⟨hle, _, rfl⟩ := read_exact_ok h
  rw [List.length_drop]
  omega

theorem consumes_rbind {α β : Type} {rd1 : ByteStream → Except NbtError (α × ByteStream)}
    {rd2 : α → ByteStream → Except NbtError (β × ByteStream)}
    (h1 : ReaderConsumes rd1) (h2 : ∀ a, ReaderOk (rd2 a)) :
    ReaderConsumes (rbind rd1 rd2) := by
  intro s b r h
  unfold rbind at h
  cases hr1 : rd1 s with
  | error e => rw [hr1] at h; exact absurd h (by simp)
  | ok p =>
    obtain ⟨a, s1⟩ := p
    rw [hr1] at h
    dsimp only at h
    obtain ⟨c, rfl, _⟩ := (h2 a).trunc _ _ _ h
    have hl1 := h1 _ _ _ hr1
    rw [List.length_append] at hl1
    omega

theorem consumes_map_val {α β : Type} {rd : ByteStream → Except NbtError (α × ByteStream)}
    (f : α → β) (h : ReaderConsumes rd) : ReaderConsumes (fun s => map_val f (rd s)) := by
  intro s b r hx
  obtain ⟨a, ha, rfl⟩ := map_val_ok_iff.mp hx
  exact h _ _ _ ha

theorem consumes_read_be {n : Nat} (hn : 0 < n) : ReaderConsumes (read_be n) :=
  consumes_rbind (consumes_read_exact hn) (fun bs => readerOk_pure (be_nat bs))

theorem consumes_read_i8 : ReaderConsumes read_i8 :=
  consumes_map_val (to_signed 8) consumes_read_u8

theorem consumes_read_i16 : ReaderConsumes read_i16 :=
  consumes_map_val (to_signed 16) (consumes_read_be (by omega))

theorem consumes_read_i32 : ReaderConsumes read_i32 :=
  consumes_map_val (to_signed 32) (consumes_read_be (by omega))

theorem consumes_read_i64 : ReaderConsumes read_i64 :=
  consumes_map_val (to_signed 64) (consumes_read_be (by omega))

theorem consumes_read_string : ReaderConsumes read_string :=
  consumes_rbind (consumes_read_be (by omega)) readerOk_string_tail

theorem consumes_read_len_prefixed_array {α : Type}
    {elem : ByteStream → Except NbtError (α × ByteStream)} (he : ReaderOk elem) :
    ReaderConsumes (read_len_prefixed_array elem) :=
  consumes_rbind consumes_read_i32 (fun len => readerOk_read_array he (i32_as_usize len))

set_option maxHeartbeats 2000000 in
/-- Every non-recursive match arm of read_tag_body is a well-behaved
reader that consumes at least one byte on success. -/
theorem simple_reader_spec {id : Nat} {rd} (h : simple_reader id = some rd) :
    ReaderOk rd ∧ ReaderConsumes rd := by
  unfold simple_reader at h
  split_ifs at h
  all_goals injection h with h
  all_goals subst h
  all_goals first
  | exact ⟨readerOk_map_val _ readerOk_read_i8, consumes_map_val _ consumes_read_i8⟩
  | exact ⟨readerOk_map_val _ readerOk_read_i16, consumes_map_val _ consumes_read_i16⟩
  | exact ⟨readerOk_map_val _ readerOk_read_i32, consumes_map_val _ consumes_read_i32⟩
  | exact ⟨readerOk_map_val _ readerOk_read_i64, consumes_map_val _ consumes_read_i64⟩
  | exact ⟨readerOk_map_val _ (readerOk_read_be 4), consumes_map_val _ (consumes_read_be (by omega))⟩
  | exact ⟨readerOk_map_val _ (readerOk_read_be 8), consumes_map_val _ (consumes_read_be (by omega))⟩
  | exact ⟨readerOk_map_val _ (readerOk_read_len_prefixed_array readerOk_read_i8),
      consumes_map_val _ (consumes_read_len_prefixed_array readerOk_read_i8)⟩
  | exact ⟨readerOk_map_val _ readerOk_read_string, consumes_map_val _ consumes_read_string⟩
  | exact ⟨readerOk_map_val _ (readerOk_read_len_prefixed_array readerOk_read_i32),
      consumes_map_val _ (consumes_read_len_prefixed_array readerOk_read_i32)⟩
  | exact ⟨readerOk_map_val _ (readerOk_read_len_prefixed_array readerOk_read_i64),
      consumes_map_val _ (consumes_read_len_prefixed_array readerOk_read_i64)⟩

/-!  Stream discipline of the decoder: every success consumes a nonempty
prefix, list loops consume at least one byte per element, and a
successful compound decode ends on a sentinel byte. -/

theorem decode_suffix (f : Nat) :
    (∀ id s t r, read_tag_body f id s = .ok (t, r) →
      ∃ c, s = c ++ r ∧ c ≠ [] ∧
        (id = 10 → ∃ b, c.getLast? = some b ∧ b % 256 = 0)) ∧
    (∀ tid n s ts r, read_list_elems f tid n s = .ok (ts, r) →
      ∃ c, s = c ++ r ∧ n ≤ c.length) ∧
    (∀ tid acc s cm r, read_compound_loop f tid acc s = .ok (cm, r) →
      ∃ c, s = c ++ r ∧ (tid ≠ 0 → ∃ b, c.getLast? = some b ∧ b % 256 = 0)) := by
  induction f with
  | zero =>
    refine ⟨?_, ?_, ?_⟩
    · intro id s t r h
      rw [read_tag_body_zero] at h
      exact absurd h (by simp)
    · intro tid n s ts r h
      cases n with
      | zero =>
        rw [read_list_elems_zero] at h
        injection h with h
        injection h with h1 h2
        exact ⟨[], by rw [List.nil_append, h2], by simp⟩
      | succ n =>
        rw [read_list_elems_succ] at h
        exact absurd h (by simp)
    · intro tid acc s cm r h
      by_cases h0 : tid = 0
      · subst h0
        rw [read_compound_loop_sentinel] at h
        injection h with h
        injection h with h1 h2
        exact ⟨[], by rw [List.nil_append, h2], fun hne => absurd rfl hne⟩
      · rw [read_compound_loop_step h0] at h
        exact absurd h (by simp)
  | succ f ih =>
    obtain ⟨ihT, ihL, ihC⟩ := ih
    refine ⟨?_, ?_, ?_⟩
    · intro id s t r h
      cases hsr : simple_reader id with
      | some rd =>
        rw [read_tag_body_succ_simple hsr] at h
        obtain ⟨hok, hcons⟩ := simple_reader_spec hsr
        obtain ⟨c, rfl, _⟩ := hok.trunc _ _ _ h
        have hlen := hcons _ _ _ h
        rw [List.length_append] at hlen
        refine ⟨c, rfl, ?_, ?_⟩
        · intro h0
          rw [h0] at hlen
          simp at hlen
        · intro h10
          rw [h10] at hsr
          rw [show simple_reader 10 = none from rfl] at hsr
          exact Option.noConfusion hsr
      | none =>
        by_cases h9 : id = 9
        · subst h9
          rw [read_tag_body_succ_nine] at h
          cases hu : read_u8 s with
          | error e => rw [hu] at h; exact absurd h (by simp)
          | ok p =>
            obtain ⟨type_id, s1⟩ := p
            rw [hu] at h
            dsimp only at h
            cases hi : read_i32 s1 with
            | error e => rw [hi] at h; exact absurd h (by simp)
            | ok q =>
              obtain ⟨len_i, s2⟩ := q
              rw [hi] at h
              dsimp only at h
              obtain ⟨b, rfl, rfl⟩ := read_u8_ok_iff.mp hu
              obtain ⟨c2, rfl, _⟩ := readerOk_read_i32.trunc _ _ _ hi
              split_ifs at h with hbad hzero
              · injection h with h
                injection h with h1 h2
                subst h2
                exact ⟨b :: c2, rfl, by simp, fun h10 => absurd h10 (by decide)⟩
              · cases hl : read_list_elems f (b % 256) (i32_as_usize len_i) s2 with
                | error e => rw [hl] at h; exact absurd h (by simp)
                | ok w =>
                  obtain ⟨elems, s3⟩ := w
                  rw [hl] at h
                  dsimp only at h
                  injection h with h
                  injection h with h1 h2
                  subst h2
                  obtain ⟨c3, rfl, _⟩ := ihL _ _ _ _ _ hl
                  exact ⟨b :: (c2 ++ c3), by simp, by simp,
                    fun h10 => absurd h10 (by decide)⟩
        · by_cases h10 : id = 10
          · subst h10
            rw [read_tag_body_succ_ten] at h
            cases hu : read_u8 s with
            | error e => rw [hu] at h; exact absurd h (by simp)
            | ok p =>
              obtain ⟨tag_id, s1⟩ := p
              rw [hu] at h
              dsimp only at h
              cases hc : read_compound_loop f tag_id [] s1 with
              | error e => rw [hc] at h; exact absurd h (by simp)
              | ok w =>
                obtain ⟨cm, s2⟩ := w
                rw [hc] at h
                dsimp only at h
                injection h with h
                injection h with h1 h2
                subst h2
                obtain ⟨b, rfl, rfl⟩ := read_u8_ok_iff.mp hu
                by_cases hb : b % 256 = 0
                · rw [hb, read_compound_loop_sentinel] at hc
                  injection hc with hc
                  injection hc with hc1 hc2
                  subst hc2
                  exact ⟨[b], rfl, by simp, fun _ => ⟨b, rfl, hb⟩⟩
                · obtain ⟨c2, rfl, hsent⟩ := ihC _ _ _ _ _ hc
                  obtain ⟨b2, hlast, hb2⟩ := hsent hb
                  refine ⟨b :: c2, rfl, by simp, fun _ => ⟨b2, ?_, hb2⟩⟩
                  cases c2 with
                  | nil => exact absurd hlast (by simp)
                  | cons x xs => rw [List.getLast?_cons_cons]; exact hlast
          · rw [read_tag_body_succ_other h9 h10 hsr] at h
            exact absurd h (by simp)
    · intro tid n s ts r h
      cases n with
      | zero =>
        rw [read_list_elems_zero] at h
        injection h with h
        injection h with h1 h2
        exact ⟨[], by rw [List.nil_append, h2], by simp⟩
      | succ n =>
        rw [read_list_elems_succ] at h
        dsimp only at h
        cases ht : read_tag_body f tid s with
        | error e => rw [ht] at h; exact absurd h (by simp)
        | ok p =>
          obtain ⟨tag, s1⟩ := p
          rw [ht] at h
          dsimp only at h
          cases hl : read_list_elems f tid n s1 with
          | error e => rw [hl] at h; exact absurd h (by simp)
          | ok q =>
            obtain ⟨tl, s2⟩ := q
            rw [hl] at h
            dsimp only at h
            injection h with h
            injection h with h1 h2
            subst h2
            obtain ⟨c1, rfl, hc1ne, _⟩ := ihT _ _ _ _ ht
            obtain ⟨c2, rfl, hlen⟩ := ihL _ _ _ _ _ hl
            refine ⟨c1 ++ c2, by rw [List.append_assoc], ?_⟩
            rw [List.length_append]
            have hpos : 0 < c1.length := List.length_pos.mpr hc1ne
            omega
    · intro tid acc s cm r h
      by_cases h0 : tid = 0
      · subst h0
        rw [read_compound_loop_sentinel] at h
        injection h with h
        injection h with h1 h2
        exact ⟨[], by rw [List.nil_append, h2], fun hne => absurd rfl hne⟩
      · rw [read_compound_loop_step h0] at h
        dsimp only at h
        cases h1 : read_string s with
        | error e => rw [h1] at h; exact absurd h (by simp)
        | ok p =>
          obtain ⟨name, s1⟩ := p
          rw [h1] at h
          dsimp only at h
          cases h2 : read_tag_body f tid s1 with
          | error e => rw [h2] at h; exact absurd h (by simp)
          | ok q =>
            obtain ⟨tag, s2⟩ := q
            rw [h2] at h
            dsimp only at h
            cases h3 : read_u8 s2 with
            | error e => rw [h3] at h; exact absurd h (by simp)
            | ok u =>
              obtain ⟨next_id, s3⟩ := u
              rw [h3] at h
              dsimp only at h
              obtain ⟨c1, rfl, _⟩ := readerOk_read_string.trunc _ _ _ h1
              obtain ⟨c2, rfl, hc2ne, _⟩ := ihT _ _ _ _ h2
              obtain ⟨b, rfl, rfl⟩ := read_u8_ok_iff.mp h3
              by_cases hb : b % 256 = 0
              · rw [hb, read_compound_loop_sentinel] at h
                injection h with h
                injection h with hh1 hh2
                subst hh2
                refine ⟨c1 ++ (c2 ++ [b]), by simp, fun _ => ⟨b, ?_, hb⟩⟩
                rw [List.getLast?_append_of_ne_nil _ (by simp),
                  List.getLast?_append_of_ne_nil _ (by simp)]
                rfl
              · obtain ⟨c4, rfl, hsent⟩ := ihC _ _ _ _ _ h
                obtain ⟨b2, hlast, hb2⟩ := hsent hb
                refine ⟨c1 ++ (c2 ++ (b :: c4)), by simp, fun _ => ⟨b2, ?_, hb2⟩⟩
                rw [List.getLast?_append_of_ne_nil _ (by simp),
                  List.getLast?_append_of_ne_nil _ (by simp)]
                cases c4 with
                | nil => exact absurd hlast (by simp)
                | cons x xs => rw [List.getLast?_cons_cons]; exact hlast

/-- Every successful tag-body decode consumes at least one byte. -/
theorem read_tag_body_consumes {f id : Nat} {s : ByteStream} {t : NbtTag} {r : ByteStream}
    (h : read_tag_body f id s = .ok (t, r)) : r.length < s.length := by
  obtain ⟨c, rfl, hne, _⟩ := (decode_suffix f).1 _ _ _ _ h
  have hpos := List.length_pos.mpr hne
  rw [List.length_append]
  omega

/-!  Fuel sufficiency: with fuel exceeding twice the stream length, the
fuel-exhaustion artifact never occurs — the recursion is bounded by the
exhaustion of the stream itself, exactly as in the source, where the
loops stop only on the sentinel or on a read failure. -/

theorem decode_no_fuel (f : Nat) :
    (∀ id s, 2 * s.length + 1 ≤ f → read_tag_body f id s ≠ .error .outOfFuel) ∧
    (∀ tid n s, 2 * s.length + 2 ≤ f → read_list_elems f tid n s ≠ .error .outOfFuel) ∧
    (∀ tid acc s, 2 * s.length + 2 ≤ f →
      read_compound_loop f tid acc s ≠ .error .outOfFuel) := by
  induction f with
  | zero =>
    refine ⟨?_, ?_, ?_⟩
    · intro id s hf
      omega
    · intro tid n s hf
      omega
    · intro tid acc s hf
      omega
  | succ f ih =>
    obtain ⟨ihT, ihL, ihC⟩ := ih
    refine ⟨?_, ?_, ?_⟩
    · intro id s hf h
      cases hsr : simple_reader id with
      | some rd =>
        rw [read_tag_body_succ_simple hsr] at h
        exact (simple_reader_spec hsr).1.no_fuel s h
      | none =>
        by_cases h9 : id = 9
        · subst h9
          rw [read_tag_body_succ_nine] at h
          cases hu : read_u8 s with
          | error e =>
            rw [hu] at h
            dsimp only at h
            injection h with h
            subst h
            exact readerOk_read_u8.no_fuel s hu
          | ok p =>
            obtain ⟨type_id, s1⟩ := p
            rw [hu] at h
            dsimp only at h
            cases hi : read_i32 s1 with
            | error e =>
              rw [hi] at h
              dsimp only at h
              injection h with h
              subst h
              exact readerOk_read_i32.no_fuel s1 hi
            | ok q =>
              obtain ⟨len_i, s2⟩ := q
              rw [hi] at h
              dsimp only at h
              by_cases hbad : (12 < type_id ∨ (type_id = 0 ∧ 0 < i32_as_usize len_i))
              · rw [if_pos hbad] at h
                exact absurd h (by simp)
              · rw [if_neg hbad] at h
                by_cases hzero : i32_as_usize len_i = 0
                · rw [if_pos hzero] at h
                  exact absurd h (by simp)
                · rw [if_neg hzero] at h
                  cases hl : read_list_elems f type_id (i32_as_usize len_i) s2 with
                  | error e =>
                    rw [hl] at h
                    dsimp only at h
                    injection h with h
                    subst h
                    have hl1 := consumes_read_u8 _ _ _ hu
                    have hl2 := consumes_read_i32 _ _ _ hi
                    exact ihL type_id _ s2 (by omega) hl
                  | ok w =>
                    rw [hl] at h
                    obtain ⟨elems, s3⟩ := w
                    dsimp only at h
                    exact absurd h (by simp)
        · by_cases h10 : id = 10
          · subst h10
            rw [read_tag_body_succ_ten] at h
            cases hu : read_u8 s with
            | error e =>
              rw [hu] at h
              dsimp only at h
              injection h with h
              subst h
              exact readerOk_read_u8.no_fuel s hu
            | ok p =>
              obtain ⟨tag_id, s1⟩ := p
              rw [hu] at h
              dsimp only at h
              cases hc : read_compound_loop f tag_id [] s1 with
              | error e =>
                rw [hc] at h
                dsimp only at h
                injection h with h
                subst h
                have hl1 := consumes_read_u8 _ _ _ hu
                exact ihC tag_id [] s1 (by omega) hc
              | ok w =>
                rw [hc] at h
                obtain ⟨cm, s2⟩ := w
                dsimp only at h
                exact absurd h (by simp)
          · rw [read_tag_body_succ_other h9 h10 hsr] at h
            exact absurd h (by simp)
    · intro tid n s hf h
      cases n with
      | zero =>
        rw [read_list_elems_zero] at h
        exact absurd h (by simp)
      | succ n =>
        rw [read_list_elems_succ] at h
        dsimp only at h
        cases ht : read_tag_body f tid s with
        | error e =>
          rw [ht] at h
          dsimp only at h
          injection h with h
          subst h
          exact ihT tid s (by omega) ht
        | ok p =>
          obtain ⟨tag, s1⟩ := p
          rw [ht] at h
          dsimp only at h
          cases hl : read_list_elems f tid n s1 with
          | error e =>
            rw [hl] at h
            dsimp only at h
            injection h with h
            subst h
            have hlen := read_tag_body_consumes ht
            exact ihL tid n s1 (by omega) hl
          | ok w =>
            rw [hl] at h
            obtain ⟨tl, s2⟩ := w
            dsimp only at h
            exact absurd h (by simp)
    · intro tid acc s hf h
      by_cases h0 : tid = 0
      · subst h0
        rw [read_compound_loop_sentinel] at h
        exact absurd h (by simp)
      · rw [read_compound_loop_step h0] at h
        dsimp only at h
        cases h1 : read_string s with
        | error e =>
          rw [h1] at h
          dsimp only at h
          injection h with h
          subst h
          exact readerOk_read_string.no_fuel s h1
        | ok p =>
          obtain ⟨name, s1⟩ := p
          rw [h1] at h
          dsimp only at h
          cases h2 : read_tag_body f tid s1 with
          | error e =>
            rw [h2] at h
            dsimp only at h
            injection h with h
            subst h
            have hl1 := consumes_read_string _ _ _ h1
            exact ihT tid s1 (by omega) h2
          | ok q =>
            obtain ⟨tag, s2⟩ := q
            rw [h2] at h
            dsimp only at h
            cases h3 : read_u8 s2 with
            | error e =>
              rw [h3] at h
              dsimp only at h
              injection h with h
              subst h
              exact readerOk_read_u8.no_fuel s2 h3
            | ok u =>
              obtain ⟨next_id, s3⟩ := u
              rw [h3] at h
              dsimp only at h
              have hl1 := consumes_read_string _ _ _ h1
              have hl2 := read_tag_body_consumes h2
              have hl3 := consumes_read_u8 _ _ _ h3
              exact ihC next_id _ s3 (by omega) h

/-!  Extension: decoding only looks at the consumed prefix, so appending
data past the value leaves the value and the consumed prefix unchanged
and lands the cursor in the same place relative to the value. -/

theorem decode_extend (f : Nat) :
    (∀ id s t r ext, read_tag_body f id s = .ok (t, r) →
      read_tag_body f id (s ++ ext) = .ok (t, r ++ ext)) ∧
    (∀ tid n s ts r ext, read_list_elems f tid n s = .ok (ts, r) →
      read_list_elems f tid n (s ++ ext) = .ok (ts, r ++ ext)) ∧
    (∀ tid acc s cm r ext, read_compound_loop f tid acc s = .ok (cm, r) →
      read_compound_loop f tid acc (s ++ ext) = .ok (cm, r ++ ext)) := by
  induction f with
  | zero =>
    refine ⟨?_, ?_, ?_⟩
    · intro id s t r ext h
      rw [read_tag_body_zero] at h
      exact absurd h (by simp)
    · intro tid n s ts r ext h
      cases n with
      | zero =>
        rw [read_list_elems_zero] at h ⊢
        injection h with h
        injection h with h1 h2
        rw [← h1, ← h2]
      | succ n =>
        rw [read_list_elems_succ] at h
        exact absurd h (by simp)
    · intro tid acc s cm r ext h
      by_cases h0 : tid = 0
      · subst h0
        rw [read_compound_loop_sentinel] at h ⊢
        injection h with h
        injection h with h1 h2
        rw [← h1, ← h2]
      · rw [read_compound_loop_step h0] at h
        exact absurd h (by simp)
  | succ f ih =>
    obtain ⟨ihT, ihL, ihC⟩ := ih
    refine ⟨?_, ?_, ?_⟩
    · intro id s t r ext h
      cases hsr : simple_reader id with
      | some rd =>
        rw [read_tag_body_succ_simple hsr] at h ⊢
        exact (simple_reader_spec hsr).1.extend _ _ _ ext h
      | none =>
        by_cases h9 : id = 9
        · subst h9
          rw [read_tag_body_succ_nine] at h ⊢
          cases hu : read_u8 s with
          | error e => rw [hu] at h; exact absurd h (by simp)
          | ok p =>
            obtain ⟨type_id, s1⟩ := p
            rw [hu] at h
            dsimp only at h
            rw [readerOk_read_u8.extend _ _ _ ext hu]
            dsimp only
            cases hi : read_i32 s1 with
            | error e => rw [hi] at h; exact absurd h (by simp)
            | ok q =>
              obtain ⟨len_i, s2⟩ := q
              rw [hi] at h
              dsimp only at h
              rw [readerOk_read_i32.extend _ _ _ ext hi]
              dsimp only
              by_cases hbad : (12 < type_id ∨ (type_id = 0 ∧ 0 < i32_as_usize len_i))
              · rw [if_pos hbad] at h
                exact absurd h (by simp)
              · rw [if_neg hbad] at h ⊢
                by_cases hzero : i32_as_usize len_i = 0
                · rw [if_pos hzero] at h ⊢
                  injection h with h
                  injection h with h1 h2
                  rw [← h1, ← h2]
                · rw [if_neg hzero] at h ⊢
                  cases hl : read_list_elems f type_id (i32_as_usize len_i) s2 with
                  | error e => rw [hl] at h; exact absurd h (by simp)
                  | ok w =>
                    obtain ⟨elems, s3⟩ := w
                    rw [hl] at h
                    dsimp only at h
                    rw [ihL _ _ _ _ _ ext hl]
                    dsimp only
                    injection h with h
                    injection h with h1 h2
                    rw [← h1, ← h2]
        · by_cases h10 : id = 10
          · subst h10
            rw [read_tag_body_succ_ten] at h ⊢
            cases hu : read_u8 s with
            | error e => rw [hu] at h; exact absurd h (by simp)
            | ok p =>
              obtain ⟨tag_id, s1⟩ := p
              rw [hu] at h
              dsimp only at h
              rw [readerOk_read_u8.extend _ _ _ ext hu]
              dsimp only
              cases hc : read_compound_loop f tag_id [] s1 with
              | error e => rw [hc] at h; exact absurd h (by simp)
              | ok w =>
                obtain ⟨cm, s2⟩ := w
                rw [hc] at h
                dsimp only at h
                rw [ihC _ _ _ _ _ ext hc]
                dsimp only
                injection h with h
                injection h with h1 h2
                rw [← h1, ← h2]
          · rw [read_tag_body_succ_other h9 h10 hsr] at h
            exact absurd h (by simp)
    · intro tid n s ts r ext h
      cases n with
      | zero =>
        rw [read_list_elems_zero] at h ⊢
        injection h with h
        injection h with h1 h2
        rw [← h1, ← h2]
      | succ n =>
        rw [read_list_elems_succ] at h ⊢
        dsimp only at h ⊢
        cases ht : read_tag_body f tid s with
        | error e => rw [ht] at h; exact absurd h (by simp)
        | ok p =>
          obtain ⟨tag, s1⟩ := p
          rw [ht] at h
          dsimp only at h
          rw [ihT _ _ _ _ ext ht]
          dsimp only
          cases hl : read_list_elems f tid n s1 with
          | error e => rw [hl] at h; exact absurd h (by simp)
          | ok q =>
            obtain ⟨tl, s2⟩ := q
            rw [hl] at h
            dsimp only at h
            rw [ihL _ _ _ _ _ ext hl]
            dsimp only
            injection h with h
            injection h with h1 h2
            rw [← h1, ← h2]
    · intro tid acc s cm r ext h
      by_cases h0 : tid = 0
      · subst h0
        rw [read_compound_loop_sentinel] at h ⊢
        injection h with h
        injection h with h1 h2
        rw [← h1, ← h2]
      · rw [read_compound_loop_step h0] at h ⊢
        dsimp only at h ⊢
        cases h1 : read_string s with
        | error e => rw [h1] at h; exact absurd h (by simp)
        | ok p =>
          obtain ⟨name, s1⟩ := p
          rw [h1] at h
          dsimp only at h
          rw [readerOk_read_string.extend _ _ _ ext h1]
          dsimp only
          cases h2 : read_tag_body f tid s1 with
          | error e => rw [h2] at h; exact absurd h (by simp)
          | ok q =>
            obtain ⟨tag, s2⟩ := q
            rw [h2] at h
            dsimp only at h
            rw [ihT _ _ _ _ ext h2]
            dsimp only
            cases h3 : read_u8 s2 with
            | error e => rw [h3] at h; exact absurd h (by simp)
            | ok u =>
              obtain ⟨next_id, s3⟩ := u
              rw [h3] at h
              dsimp only at h
              rw [readerOk_read_u8.extend _ _ _ ext h3]
              dsimp only
              exact ihC _ _ _ _ _ ext h

/-!  Truncation: a successful decode is reproduced by running the decoder
on the consumed prefix alone, which it consumes entirely. -/

theorem decode_trunc (f : Nat) :
    (∀ id s t r, read_tag_body f id s = .ok (t, r) →
      ∃ c, s = c ++ r ∧ read_tag_body f id c = .ok (t, [])) ∧
    (∀ tid n s ts r, read_list_elems f tid n s = .ok (ts, r) →
      ∃ c, s = c ++ r ∧ read_list_elems f tid n c = .ok (ts, [])) ∧
    (∀ tid acc s cm r, read_compound_loop f tid acc s = .ok (cm, r) →
      ∃ c, s = c ++ r ∧ read_compound_loop f tid acc c = .ok (cm, [])) := by
  induction f with
  | zero =>
    refine ⟨?_, ?_, ?_⟩
    · intro id s t r h
      rw [read_tag_body_zero] at h
      exact absurd h (by simp)
    · intro tid n s ts r h
      cases n with
      | zero =>
        rw [read_list_elems_zero] at h
        injection h with h
        injection h with h1 h2
        refine ⟨[], by rw [List.nil_append, h2], ?_⟩
        rw [read_list_elems_zero, ← h1]
      | succ n =>
        rw [read_list_elems_succ] at h
        exact absurd h (by simp)
    · intro tid acc s cm r h
      by_cases h0 : tid = 0
      · subst h0
        rw [read_compound_loop_sentinel] at h
        injection h with h
        injection h with h1 h2
        refine ⟨[], by rw [List.nil_append, h2], ?_⟩
        rw [read_compound_loop_sentinel, ← h1]
      · rw [read_compound_loop_step h0] at h
        exact absurd h (by simp)
  | succ f ih =>
    obtain ⟨ihT, ihL, ihC⟩ := ih
    refine ⟨?_, ?_, ?_⟩
    · intro id s t r h
      cases hsr : simple_reader id with
      | some rd =>
        rw [read_tag_body_succ_simple hsr] at h
        obtain ⟨c, rfl, hcrun⟩ := (simple_reader_spec hsr).1.trunc _ _ _ h
        refine ⟨c, rfl, ?_⟩
        rw [read_tag_body_succ_simple hsr]
        exact hcrun
      | none =>
        by_cases h9 : id = 9
        · subst h9
          rw [read_tag_body_succ_nine] at h
          cases hu : read_u8 s with
          | error e => rw [hu] at h; exact absurd h (by simp)
          | ok p =>
            obtain ⟨type_id, s1⟩ := p
            rw [hu] at h
            dsimp only at h
            cases hi : read_i32 s1 with
            | error e => rw [hi] at h; exact absurd h (by simp)
            | ok q =>
              obtain ⟨len_i, s2⟩ := q
              rw [hi] at h
              dsimp only at h
              obtain ⟨c1, rfl, hc1⟩ := readerOk_read_u8.trunc _ _ _ hu
              obtain ⟨c2, rfl, hc2⟩ := readerOk_read_i32.trunc _ _ _ hi
              by_cases hbad : (12 < type_id ∨ (type_id = 0 ∧ 0 < i32_as_usize len_i))
              · rw [if_pos hbad] at h
                exact absurd h (by simp)
              · rw [if_neg hbad] at h
                by_cases hzero : i32_as_usize len_i = 0
                · rw [if_pos hzero] at h
                  injection h with h
                  injection h with h1 h2
                  refine ⟨c1 ++ c2, by rw [List.append_assoc, h2], ?_⟩
                  rw [read_tag_body_succ_nine]
                  have e1 := readerOk_read_u8.extend _ _ _ c2 hc1
                  rw [List.nil_append] at e1
                  rw [e1]
                  dsimp only
                  rw [hc2]
                  dsimp only
                  rw [if_neg hbad, if_pos hzero, ← h1]
                · rw [if_neg hzero] at h
                  cases hl : read_list_elems f type_id (i32_as_usize len_i) s2 with
                  | error e => rw [hl] at h; exact absurd h (by simp)
                  | ok w =>
                    obtain ⟨elems, s3⟩ := w
                    rw [hl] at h
                    dsimp only at h
                    injection h with h
                    injection h with h1 h2
                    obtain ⟨c3, rfl, hc3⟩ := ihL _ _ _ _ _ hl
                    refine ⟨c1 ++ (c2 ++ c3), by simp [h2], ?_⟩
                    rw [read_tag_body_succ_nine]
                    have e1 := readerOk_read_u8.extend _ _ _ (c2 ++ c3) hc1
                    rw [List.nil_append] at e1
                    rw [e1]
                    dsimp only
                    have e2 := readerOk_read_i32.extend _ _ _ c3 hc2
                    rw [List.nil_append] at e2
                    rw [e2]
                    dsimp only
                    rw [if_neg hbad, if_neg hzero, hc3]
                    dsimp only
                    rw [← h1]
        · by_cases h10 : id = 10
          · subst h10
            rw [read_tag_body_succ_ten] at h
            cases hu : read_u8 s with
            | error e => rw [hu] at h; exact absurd h (by simp)
            | ok p =>
              obtain ⟨tag_id, s1⟩ := p
              rw [hu] at h
              dsimp only at h
              cases hc : read_compound_loop f tag_id [] s1 with
              | error e => rw [hc] at h; exact absurd h (by simp)
              | ok w =>
                obtain ⟨cm, s2⟩ := w
                rw [hc] at h
                dsimp only at h
                injection h with h
                injection h with h1 h2
                obtain ⟨c1, rfl, hc1⟩ := readerOk_read_u8.trunc _ _ _ hu
                obtain ⟨c4, rfl, hc4⟩ := ihC _ _ _ _ _ hc
                refine ⟨c1 ++ c4, by rw [List.append_assoc, h2], ?_⟩
                rw [read_tag_body_succ_ten]
                have e1 := readerOk_read_u8.extend _ _ _ c4 hc1
                rw [List.nil_append] at e1
                rw [e1]
                dsimp only
                rw [hc4]
                dsimp only
                rw [← h1]
          · rw [read_tag_body_succ_other h9 h10 hsr] at h
            exact absurd h (by simp)
    · intro tid n s ts r h
      cases n with
      | zero =>
        rw [read_list_elems_zero] at h
        injection h with h
        injection h with h1 h2
        refine ⟨[], by rw [List.nil_append, h2], ?_⟩
        rw [read_list_elems_zero, ← h1]
      | succ n =>
        rw [read_list_elems_succ] at h
        dsimp only at h
        cases ht : read_tag_body f tid s with
        | error e => rw [ht] at h; exact absurd h (by simp)
        | ok p =>
          obtain ⟨tag, s1⟩ := p
          rw [ht] at h
          dsimp only at h
          cases hl : read_list_elems f tid n s1 with
          | error e => rw [hl] at h; exact absurd h (by simp)
          | ok q =>
            obtain ⟨tl, s2⟩ := q
            rw [hl] at h
            dsimp only at h
            injection h with h
            injection h with h1 h2
            obtain ⟨c1, rfl, hc1⟩ := ihT _ _ _ _ ht
            obtain ⟨c2, rfl, hc2⟩ := ihL _ _ _ _ _ hl
            refine ⟨c1 ++ c2, by rw [List.append_assoc, h2], ?_⟩
            rw [read_list_elems_succ]
            dsimp only
            have e1 := (decode_extend f).1 _ _ _ _ c2 hc1
            rw [List.nil_append] at e1
            rw [e1]
            dsimp only
            rw [hc2]
            dsimp only
            rw [← h1]
    · intro tid acc s cm r h
      by_cases h0 : tid = 0
      · subst h0
        rw [read_compound_loop_sentinel] at h
        injection h with h
        injection h with h1 h2
        refine ⟨[], by rw [List.nil_append, h2], ?_⟩
        rw [read_compound_loop_sentinel, ← h1]
      · rw [read_compound_loop_step h0] at h
        dsimp only at h
        cases h1 : read_string s with
        | error e => rw [h1] at h; exact absurd h (by simp)
        | ok p =>
          obtain ⟨name, s1⟩ := p
          rw [h1] at h
          dsimp only at h
          cases h2 : read_tag_body f tid s1 with
          | error e => rw [h2] at h; exact absurd h (by simp)
          | ok q =>
            obtain ⟨tag, s2⟩ := q
            rw [h2] at h
            dsimp only at h
            cases h3 : read_u8 s2 with
            | error e => rw [h3] at h; exact absurd h (by simp)
            | ok u =>
              obtain ⟨next_id, s3⟩ := u
              rw [h3] at h
              dsimp only at h
              obtain ⟨c1, rfl, hc1⟩ := readerOk_read_string.trunc _ _ _ h1
              obtain ⟨c2, rfl, hc2⟩ := ihT _ _ _ _ h2
              obtain ⟨c3, rfl, hc3⟩ := readerOk_read_u8.trunc _ _ _ h3
              obtain ⟨c4, rfl, hc4⟩ := ihC _ _ _ _ _ h
              refine ⟨c1 ++ (c2 ++ (c3 ++ c4)), by simp, ?_⟩
              rw [read_compound_loop_step h0]
              dsimp only
              have e1 := readerOk_read_string.extend _ _ _ (c2 ++ (c3 ++ c4)) hc1
              rw [List.nil_append] at e1
              rw [e1]
              dsimp only
              have e2 := (decode_extend f).1 _ _ _ _ (c3 ++ c4) hc2
              rw [List.nil_append] at e2
              rw [e2]
              dsimp only
              have e3 := readerOk_read_u8.extend _ _ _ c4 hc3
              rw [List.nil_append] at e3
              rw [e3]
              dsimp only
              exact hc4

/-!  Fuel irrelevance: any run that does not exhaust its fuel computes
the same result at every larger fuel. -/

theorem decode_fuel_mono (f : Nat) :
    (∀ f2 id s, f ≤ f2 → read_tag_body f id s ≠ .error .outOfFuel →
      read_tag_body f2 id s = read_tag_body f id s) ∧
    (∀ f2 tid n s, f ≤ f2 → read_list_elems f tid n s ≠ .error .outOfFuel →
      read_list_elems f2 tid n s = read_list_elems f tid n s) ∧
    (∀ f2 tid acc s, f ≤ f2 → read_compound_loop f tid acc s ≠ .error .outOfFuel →
      read_compound_loop f2 tid acc s = read_compound_loop f tid acc s) := by
  induction f with
  | zero =>
    refine ⟨?_, ?_, ?_⟩
    · intro f2 id s _ hne
      exact absurd (read_tag_body_zero id s) hne
    · intro f2 tid n s _ hne
      cases n with
      | zero => rw [read_list_elems_zero, read_list_elems_zero]
      | succ n => exact absurd (read_list_elems_succ 0 tid n s) hne
    · intro f2 tid acc s _ hne
      by_cases h0 : tid = 0
      · subst h0
        rw [read_compound_loop_sentinel, read_compound_loop_sentinel]
      · exact absurd (read_compound_loop_step h0 0 acc s) hne
  | succ f ih =>
    obtain ⟨ihT, ihL, ihC⟩ := ih
    refine ⟨?_, ?_, ?_⟩
    · intro f2 id s hle hne
      cases f2 with
      | zero => omega
      | succ f2 =>
        have hle' : f ≤ f2 := by omega
        cases hsr : simple_reader id with
        | some rd => rw [read_tag_body_succ_simple hsr, read_tag_body_succ_simple hsr]
        | none =>
          by_cases h9 : id = 9
          · subst h9
            rw [read_tag_body_succ_nine] at hne
            rw [read_tag_body_succ_nine, read_tag_body_succ_nine]
            cases hu : read_u8 s with
            | error e => rfl
            | ok p =>
              obtain ⟨type_id, s1⟩ := p
              rw [hu] at hne
              dsimp only at hne ⊢
              cases hi : read_i32 s1 with
              | error e => rfl
              | ok q =>
                obtain ⟨len_i, s2⟩ := q
                rw [hi] at hne
                dsimp only at hne ⊢
                by_cases hbad : (12 < type_id ∨ (type_id = 0 ∧ 0 < i32_as_usize len_i))
                · rw [if_pos hbad, if_pos hbad]
                · rw [if_neg hbad] at hne
                  rw [if_neg hbad, if_neg hbad]
                  by_cases hzero : i32_as_usize len_i = 0
                  · rw [if_pos hzero, if_pos hzero]
                  · rw [if_neg hzero] at hne
                    rw [if_neg hzero, if_neg hzero]
                    have hnel : read_list_elems f type_id (i32_as_usize len_i) s2
                        ≠ .error .outOfFuel := fun hx => hne (by rw [hx])
                    rw [ihL f2 _ _ _ hle' hnel]
          · by_cases h10 : id = 10
            · subst h10
              rw [read_tag_body_succ_ten] at hne
              rw [read_tag_body_succ_ten, read_tag_body_succ_ten]
              cases hu : read_u8 s with
              | error e => rfl
              | ok p =>
                obtain ⟨tag_id, s1⟩ := p
                rw [hu] at hne
                dsimp only at hne ⊢
                have hnec : read_compound_loop f tag_id [] s1 ≠ .error .outOfFuel :=
                  fun hx => hne (by rw [hx])
                rw [ihC f2 _ _ _ hle' hnec]
            · rw [read_tag_body_succ_other h9 h10 hsr,
                read_tag_body_succ_other h9 h10 hsr]
    · intro f2 tid n s hle hne
      cases n with
      | zero => rw [read_list_elems_zero, read_list_elems_zero]
      | succ n =>
        cases f2 with
        | zero => omega
        | succ f2 =>
          have hle' : f ≤ f2 := by omega
          rw [read_list_elems_succ] at hne
          rw [read_list_elems_succ, read_list_elems_succ]
          dsimp only at hne ⊢
          have hnet : read_tag_body f tid s ≠ .error .outOfFuel :=
            fun hx => hne (by rw [hx])
          rw [ihT f2 _ _ hle' hnet]
          cases ht : read_tag_body f tid s with
          | error e => rfl
          | ok p =>
            obtain ⟨tag, s1⟩ := p
            rw [ht] at hne
            dsimp only at hne ⊢
            have hnel : read_list_elems f tid n s1 ≠ .error .outOfFuel :=
              fun hx => hne (by rw [hx])
            rw [ihL f2 _ _ _ hle' hnel]
    · intro f2 tid acc s hle hne
      by_cases h0 : tid = 0
      · subst h0
        rw [read_compound_loop_sentinel, read_compound_loop_sentinel]
      · cases f2 with
        | zero => omega
        | succ f2 =>
          have hle' : f ≤ f2 := by omega
          rw [read_compound_loop_step h0] at hne
          rw [read_compound_loop_step h0, read_compound_loop_step h0]
          dsimp only at hne ⊢
          cases h1 : read_string s with
          | error e => rfl
          | ok p =>
            obtain ⟨name, s1⟩ := p
            rw [h1] at hne
            dsimp only at hne ⊢
            have hnet : read_tag_body f tid s1 ≠ .error .outOfFuel :=
              fun hx => hne (by rw [hx])
            rw [ihT f2 _ _ hle' hnet]
            cases h2 : read_tag_body f tid s1 with
            | error e => rfl
            | ok q =>
              obtain ⟨tag, s2⟩ := q
              rw [h2] at hne
              dsimp only at hne ⊢
              cases h3 : read_u8 s2 with
              | error e => rfl
              | ok u =>
                obtain ⟨next_id, s3⟩ := u
                rw [h3] at hne
                dsimp only at hne ⊢
                have hnec : read_compound_loop f next_id
                    (compound_insert name tag acc) s3 ≠ .error .outOfFuel :=
                  fun hx => hne (by rw [hx])
                rw [ihC f2 _ _ _ hle' hnec]

/-!  Claims C1 and C2. -/

/-- C1: for every type identifier in 0x1..0xC, a successful tag-body
decode splits the stream into the consumed bytes of exactly one value
and the untouched remainder: the decode is reproduced, with the same
value, on the consumed prefix followed by ANY continuation, leaving the
continuation intact for the caller to read sibling data. -/
theorem claim_C1 (id : Nat) (s : ByteStream) (t : NbtTag) (r : ByteStream)
    (_hid1 : 1 ≤ id) (_hid2 : id ≤ 12)
    (h : read_tag_body_run id s = .ok (t, r)) :
    ∃ c, s = c ++ r ∧ ∀ r2, read_tag_body_run id (c ++ r2) = .ok (t, r2) := by
  rw [read_tag_body_run_succ] at h
  obtain ⟨c, rfl, hcrun⟩ := (decode_trunc _).1 _ _ _ _ h
  refine ⟨c, rfl, fun r2 => ?_⟩
  have hext := (decode_extend _).1 _ _ _ _ r2 hcrun
  rw [List.nil_append] at hext
  rw [read_tag_body_run_succ]
  have hnofuel : read_tag_body (2 * (c ++ r2).length + 1 + 1) id (c ++ r2)
      ≠ .error .outOfFuel :=
    (decode_no_fuel _).1 id (c ++ r2) (by omega)
  rcases le_total (2 * (c ++ r2).length + 1 + 1) (2 * (c ++ r).length + 1 + 1)
    with hcmp | hcmp
  · have hmono := (decode_fuel_mono _).1 _ id (c ++ r2) hcmp hnofuel
    rw [← hmono]
    exact hext
  · have hne : read_tag_body (2 * (c ++ r).length + 1 + 1) id (c ++ r2)
        ≠ .error .outOfFuel := by
      rw [hext]
      simp
    have hmono := (decode_fuel_mono _).1 _ id (c ++ r2) hcmp hne
    rw [hmono]
    exact hext

/-- C1 witness: a Byte value: decoding [200] consumes the one byte and
yields -56, and the same decode succeeds in front of any continuation. -/
theorem claim_C1_witness :
    ∃ c, [200] = c ++ ([] : ByteStream) ∧
      ∀ r2, read_tag_body_run 1 (c ++ r2) = .ok (NbtTag.byte (-56), r2) :=
  claim_C1 1 [200] (NbtTag.byte (-56)) [] (by decide) (by decide) rfl

/-- C2: decoding a compound body terminates for every finite stream with
no need for an iteration bound beyond the stream itself (the fuel
2*length+2 of read_tag_body_run is never exhausted); a successful decode
consumed a prefix whose final byte is the end-of-compound sentinel 0x00
(the loop stops only there); and a byte stream containing no sentinel
byte at all can never decode successfully — it surfaces a read failure,
never an infinite loop or a partial tree. -/
theorem claim_C2 (s : ByteStream) :
    read_tag_body_run 10 s ≠ .error .outOfFuel ∧
    (∀ t r, read_tag_body_run 10 s = .ok (t, r) →
      ∃ c, s = c ++ r ∧ ∃ b, c.getLast? = some b ∧ b % 256 = 0) ∧
    (is_byte_stream s → (0 : Nat) ∉ s →
      ∀ t r, read_tag_body_run 10 s ≠ .ok (t, r)) := by
  refine ⟨?_, ?_, ?_⟩
  · rw [read_tag_body_run_succ]
    exact (decode_no_fuel _).1 10 s (by omega)
  · intro t r h
    rw [read_tag_body_run_succ] at h
    obtain ⟨c, rfl, _, hsent⟩ := (decode_suffix _).1 _ _ _ _ h
    exact ⟨c, rfl, hsent rfl⟩
  · intro hbs h0 t r h
    rw [read_tag_body_run_succ] at h
    obtain ⟨c, rfl, _, hsent⟩ := (decode_suffix _).1 _ _ _ _ h
    obtain ⟨b, hlast, hb⟩ := hsent rfl
    have hmem : b ∈ c := List.mem_of_mem_getLast? hlast
    have hlt : b < 256 := hbs b (List.mem_append_left _ hmem)
    have hb0 : b = 0 := by omega
    exact h0 (by rw [← hb0]; exact List.mem_append_left _ hmem)

/-- C2 witness: the sentinel-free stream [5] neither exhausts fuel nor
decodes successfully; the compound body [1, 0, 0, 5, 0] decodes, and its
consumed bytes end with the sentinel. -/
theorem claim_C2_witness :
    read_tag_body_run 10 [5] ≠ .error .outOfFuel ∧
    (∀ t r, read_tag_body_run 10 [5] ≠ .ok (t, r)) ∧
    (∃ c, ([1, 0, 0, 5, 0] : ByteStream) = c ++ [] ∧
      ∃ b, c.getLast? = some b ∧ b % 256 = 0) :=
  ⟨(claim_C2 [5]).1,
   (claim_C2 [5]).2.2 (by intro b hb; simp at hb; omega) (by simp),
   (claim_C2 [1, 0, 0, 5, 0]).2.1 (NbtTag.compound [([], NbtTag.byte 5)]) [] rfl⟩

/-!  Claim C7: duplicate names inside one compound. -/

/-- Filtering by a predicate implied by the search predicate does not
change the first match. -/
theorem find?_filter_of_imp {α : Type} (l : List α) (p q : α → Bool)
    (h : ∀ x, p x = true → q x = true) :
    (l.filter q).find? p = l.find? p := by
  induction l with
  | nil => rfl
  | cons a tl ih =>
    by_cases hq : q a
    · by_cases hp : p a
      · simp [List.filter_cons, hq, List.find?_cons, hp]
      · simp [List.filter_cons, hq, List.find?_cons, hp, ih]
    · have hp : ¬ p a = true := fun hpa => hq (h a hpa)
      simp [List.filter_cons, hq, List.find?_cons, hp, ih]

/-- Lookup after the overwrite-on-duplicate insert: the inserted name now
maps to the inserted value, all other names are untouched. -/
theorem compound_get_insert (c : NbtCompound) (n : List Nat) (v : NbtTag) (m : List Nat) :
    compound_get (compound_insert n v c) m
      = if m = n then some v else compound_get c m := by
  unfold compound_get compound_insert
  rw [List.find?_append]
  by_cases h : m = n
  · subst h
    have hnone : (c.filter (fun e => e.1 != m)).find? (fun e => e.1 == m) = none := by
      rw [List.find?_eq_none]
      intro x hx
      have hk := List.of_mem_filter hx
      simpa using hk
    rw [hnone]
    simp [List.find?_cons]
  · rw [if_neg h]
    have h' : ¬ n = m := fun hnm => h hnm.symm
    have heq : (c.filter (fun e => e.1 != n)).find? (fun e => e.1 == m)
        = c.find? (fun e => e.1 == m) := by
      refine find?_filter_of_imp c _ _ (fun x hx => ?_)
      have hxm : x.1 = m := by simpa using hx
      simpa [hxm] using h
    rw [heq]
    cases c.find? (fun e => e.1 == m) <;> simp [h']

/-- Lookup through the insert fold: the last entry for a name wins, and
names never inserted fall through to the starting accumulator. -/
theorem compound_get_foldl (es : List (List Nat × NbtTag)) (acc : NbtCompound) (m : List Nat) :
    compound_get (es.foldl (fun a e => compound_insert e.1 e.2 a) acc) m
      = ((es.reverse.find? (fun e => e.1 == m)).map (fun e => e.2)).or
          (compound_get acc m) := by
  induction es generalizing acc with
  | nil => simp
  | cons e tl ih =>
    rw [List.foldl_cons, ih, List.reverse_cons, List.find?_append, compound_get_insert]
    cases hf : tl.reverse.find? (fun x => x.1 == m) with
    | some x => simp [Option.or]
    | none =>
      by_cases h : m = e.1
      · simp [List.find?_cons, h, Option.or]
      · have h' : (e.1 == m) = false := by
          simp only [beq_eq_false_iff_ne, ne_eq]
          exact fun hem => h hem.symm
        simp [List.find?_cons, h', h, Option.or]

/-- Refinement of the accumulator loop of the source by the entry
sequence of the spec: the loop result is exactly the fold of the
overwrite-on-duplicate insert over the raw entries, in decode order. -/
theorem read_compound_loop_eq_entries (f : Nat) (tid : Nat) (acc : NbtCompound)
    (s : ByteStream) :
    read_compound_loop f tid acc s
      = map_val (fun es => es.foldl (fun a e => compound_insert e.1 e.2 a) acc)
          (compound_entries_spec f tid s) := by
  induction f generalizing tid acc s with
  | zero =>
    by_cases h : tid = 0
    · subst h
      rw [read_compound_loop_sentinel, compound_entries_spec_sentinel]
      rfl
    · rw [read_compound_loop_step h, compound_entries_spec_step h]
      rfl
  | succ f ih =>
    by_cases h : tid = 0
    · subst h
      rw [read_compound_loop_sentinel, compound_entries_spec_sentinel]
      rfl
    · rw [read_compound_loop_step h, compound_entries_spec_step h]
      dsimp only
      cases h1 : read_string s with
      | error e => rfl
      | ok p =>
        obtain ⟨name, s1⟩ := p
        dsimp only
        cases h2 : read_tag_body f tid s1 with
        | error e => rfl
        | ok q =>
          obtain ⟨tag, s2⟩ := q
          dsimp only
          cases h3 : read_u8 s2 with
          | error e => rfl
          | ok u =>
            obtain ⟨next_id, s3⟩ := u
            dsimp only
            rw [ih]
            cases h4 : compound_entries_spec f next_id s3 with
            | error e => rfl
            | ok w =>
              obtain ⟨es, r⟩ := w
              rfl

/-- C7: a compound decoded by read_tag_body is the overwrite fold of its
raw entry sequence, so the mapping at every name is the value of the
LAST entry for that name in decode order (last-write-wins); in
particular, when two entries share a name the later one overwrites the
earlier one. -/
theorem claim_C7 (s : ByteStream) (c : NbtCompound) (r : ByteStream)
    (h : read_tag_body_run 10 s = .ok (.compound c, r)) :
    ∃ tag_id s1 es, read_u8 s = .ok (tag_id, s1)
      ∧ compound_entries_spec (2 * s.length + 1) tag_id s1 = .ok (es, r)
      ∧ c = es.foldl (fun a e => compound_insert e.1 e.2 a) []
      ∧ ∀ n, compound_get c n
          = (es.reverse.find? (fun e => e.1 == n)).map (fun e => e.2) := by
  rw [read_tag_body_run_succ, read_tag_body_succ_ten] at h
  cases hu : read_u8 s with
  | error e => rw [hu] at h; exact absurd h (by simp)
  | ok p =>
    obtain ⟨tag_id, s1⟩ := p
    rw [hu] at h
    dsimp only at h
    rw [read_compound_loop_eq_entries] at h
    cases he : compound_entries_spec (2 * s.length + 1) tag_id s1 with
    | error e => rw [he] at h; exact absurd h (by simp [map_val])
    | ok w =>
      obtain ⟨es, r0⟩ := w
      rw [he] at h
      dsimp only [map_val] at h
      injection h with h
      injection h with h1 h2
      injection h1 with h1
      subst h2
      refine ⟨tag_id, s1, es, rfl, he, h1.symm, fun n => ?_⟩
      rw [← h1, compound_get_foldl]
      rw [show compound_get [] n = none from rfl, Option.or_none]

/-- C7 witness: the compound body with entries a=5 then a=7 (duplicate
name a) decodes to a compound whose entry for a is the byte 7 read
last. -/
theorem claim_C7_witness :
    ∃ tag_id s1 es,
      read_u8 [1, 0, 1, 97, 5, 1, 0, 1, 97, 7, 0] = .ok (tag_id, s1)
      ∧ compound_entries_spec 23 tag_id s1 = .ok (es, [])
      ∧ [([97], NbtTag.byte 7)] = es.foldl (fun a e => compound_insert e.1 e.2 a) []
      ∧ ∀ n, compound_get [([97], NbtTag.byte 7)] n
          = (es.reverse.find? (fun e => e.1 == n)).map (fun e => e.2) :=
  claim_C7 [1, 0, 1, 97, 5, 1, 0, 1, 97, 7, 0] [([97], NbtTag.byte 7)] [] rfl

end QuartzNbt
